import Mathlib

/-!
# Verification of graphql-sniper against its specification

Shallow embedding of the GraphQL request-crafting / fuzzing UI, its bounded
concurrency fuzz loop, and the local forwarding proxy, translated from the
TypeScript/JavaScript sources (`Fuzzer.tsx`, `GraphQLPage.tsx`,
`server/proxy.mjs`).  Strings are modelled as Lean `String`s (sequences of
characters; JS code-unit offsets coincide with character offsets on the BMP
inputs the app manipulates).  JS objects used as string maps are modelled as
association lists in insertion order, with assignment overwriting in place.
Platform builtins with observable effects (`JSON.parse`, `JSON.stringify`,
`fetch`, `parseInt`, `performance.now`) are modelled as explicit oracle
parameters; all repository code is translated directly.
-/

namespace GraphqlSniper

/-- Characters treated as whitespace by JS `String.prototype.trim` and by the
regex class `\s` (the ASCII ones; header/identifier inputs are ASCII). -/
def isJsWhitespace (c : Char) : Bool :=
  c = ' ' || c = '\t' || c = '\n' || c = '\r' || c = '\x0b' || c = '\x0c'

/-- JS `str.trim()` on a character list. -/
def trimChars (cs : List Char) : List Char :=
  ((cs.dropWhile isJsWhitespace).reverse.dropWhile isJsWhitespace).reverse

/-- JS `str.trim()`. -/
def jsTrim (s : String) : String :=
  String.mk (trimChars s.data)

/-- ASCII lowering, as used for the case-insensitive comparisons
(`key.toLowerCase() === 'content-length'` etc.). -/
def jsToLower (s : String) : String :=
  String.mk (s.data.map Char.toLower)

/-- Split a character list at every occurrence of the separator character. -/
def splitOnChar (sep : Char) (cs : List Char) : List (List Char) :=
  cs.foldr
    (fun c acc =>
      match acc with
      | [] => [[c]]
      | piece :: rest => if c = sep then [] :: piece :: rest else (c :: piece) :: rest)
    [[]]

/-- Remove a single trailing carriage return. -/
def stripTrailingCR (cs : List Char) : List Char :=
  match cs.reverse with
  | '\r' :: rest => rest.reverse
  | _ => cs

/-- JS `raw.split(/\r?\n/)`: split at every `\n`, consuming one immediately
preceding `\r` (equivalently: split at `\n` and strip one trailing `\r` from
each piece). -/
def splitLines (raw : String) : List String :=
  (splitOnChar '\n' raw.data).map (fun piece => String.mk (stripTrailingCR piece))

/-- The HTTP methods of the request-line regex
`/^(GET|POST|PUT|PATCH|DELETE|HEAD|OPTIONS)\s+/i`. -/
def httpMethods : List String :=
  ["get", "post", "put", "patch", "delete", "head", "options"]

/-- Whether the regex `/^(GET|POST|PUT|PATCH|DELETE|HEAD|OPTIONS)\s+/i`
matches: some method name is a case-insensitive prefix, followed by at least
one whitespace character. -/
def isRequestLine (s : String) : Bool :=
  httpMethods.any (fun m =>
    let low := (jsToLower s).data
    low.take m.length = m.data &&
      match low.drop m.length with
      | [] => false
      | c :: _ => isJsWhitespace c)

/-- A header map: a JS `Record<string, string>` in property insertion order. -/
abbrev HeaderMap := List (String × String)

/-- JS object property / `Map` assignment `obj[k] = v`: overwrite in place
if the key exists (keys are unique, so at most one binding is replaced),
otherwise append. -/
def objSet {κ ν : Type} [DecidableEq κ] : List (κ × ν) → κ → ν → List (κ × ν)
  | [], k, v => [(k, v)]
  | p :: ps, k, v => if p.1 = k then (k, v) :: ps else p :: objSet ps k v

/-- JS object property / `Map` read (as an `Option`): the unique binding
for the key, if any. -/
def objGet {κ ν : Type} [DecidableEq κ] : List (κ × ν) → κ → Option ν
  | [], _ => none
  | p :: ps, k => if p.1 = k then some p.2 else objGet ps k

/-- One iteration of the `parseRawHeaders` loop body, up to the point of
assignment: `none` when the line is skipped (`continue`), `some (key, value)`
when the line contributes a header. -/
def lineEntry (line : String) : Option (String × String) :=
  let trimmed := jsTrim line
  if trimmed = "" then none
  else if isRequestLine trimmed then none
  else
    match trimmed.data.findIdx? (· = ':') with
    | none => none
    | some idx =>
      let key := jsTrim (String.mk (trimmed.data.take idx))
      let value := jsTrim (String.mk (trimmed.data.drop (idx + 1)))
      if key = "" then none
      else if jsToLower key = "content-length" then none
      else some (key, value)

/-- `parseRawHeaders` from `Fuzzer.tsx` / `GraphQLPage.tsx`: split the raw
block into lines, skip blank lines, request lines, colon-free lines, empty
names and `content-length`, and assign each surviving `key: value` into the
map (later assignment overwrites). -/
def parseRawHeaders (raw : String) : HeaderMap :=
  (splitLines raw).foldl
    (fun headers line =>
      match lineEntry line with
      | none => headers
      | some (k, v) => objSet headers k v)
    []

/-- The stream of `(key, value)` entries the `parseRawHeaders` loop assigns,
in order (before map overwriting). -/
def emittedEntries (raw : String) : List (String × String) :=
  (splitLines raw).filterMap lineEntry

/-- `mergeDefaultJsonContentType` from `Fuzzer.tsx` / `GraphQLPage.tsx`.
The spread `{ 'Content-Type': 'application/json', ...headers }` builds a new
object starting from the injected entry and assigning every entry of
`headers` in order. -/
def mergeDefaultJsonContentType (headers : HeaderMap) : HeaderMap :=
  match headers.find? (fun p => jsToLower p.1 = "content-type") with
  | none =>
    headers.foldl (fun m p => objSet m p.1 p.2) [("Content-Type", "application/json")]
  | some _ => headers

/-- Assign a stream of entries into a map in order (the association-map view
of the `parseRawHeaders` loop and of the object spread). -/
def applyEntries {κ ν : Type} [DecidableEq κ] (m : List (κ × ν))
    (es : List (κ × ν)) : List (κ × ν) :=
  es.foldl (fun acc e => objSet acc e.1 e.2) m

/-- The value kept for key `k` by the last assignment among `es`. -/
def lastValue {κ ν : Type} [DecidableEq κ] (es : List (κ × ν)) (k : κ) : Option ν :=
  ((es.filter (fun p => p.1 = k)).getLast?).map Prod.snd

theorem mem_objSet {κ ν : Type} [DecidableEq κ] {m : List (κ × ν)} {k : κ} {v : ν}
    {p : κ × ν} (hp : p ∈ objSet m k v) : p = (k, v) ∨ p ∈ m := by
  induction m with
  | nil => simpa [objSet] using hp
  | cons q qs ih =>
    by_cases h : q.1 = k
    · simp only [objSet, if_pos h, List.mem_cons] at hp
      rcases hp with h1 | h1
      · exact Or.inl h1
      · exact Or.inr (List.mem_cons_of_mem _ h1)
    · simp only [objSet, if_neg h, List.mem_cons] at hp
      rcases hp with h1 | h1
      · exact Or.inr (by simp [h1])
      · rcases ih h1 with h2 | h2
        · exact Or.inl h2
        · exact Or.inr (List.mem_cons_of_mem _ h2)

theorem objGet_objSet {κ ν : Type} [DecidableEq κ] (m : List (κ × ν)) (a : κ)
    (b : ν) (k : κ) :
    objGet (objSet m a b) k = if a = k then some b else objGet m k := by
  induction m with
  | nil =>
    by_cases h : a = k <;> simp [objSet, objGet, h]
  | cons q qs ih =>
    by_cases hq : q.1 = a
    · have hset : objSet (q :: qs) a b = (a, b) :: qs := by
        simp [objSet, hq]
      rw [hset]
      by_cases hk : a = k
      · simp [objGet, hk]
      · have hqk : ¬ q.1 = k := by rw [hq]; exact hk
        simp [objGet, hk, hqk]
    · have hset : objSet (q :: qs) a b = q :: objSet qs a b := by
        simp [objSet, hq]
      rw [hset]
      by_cases hqk : q.1 = k
      · have hk : ¬ a = k := fun h => hq (by rw [hqk, h])
        simp [objGet, hqk, hk]
      · simp [objGet, hqk, ih]

theorem objSet_fresh {κ ν : Type} [DecidableEq κ] {m : List (κ × ν)} {k : κ}
    (h : ∀ p ∈ m, p.1 ≠ k) (v : ν) :
    objSet m k v = m ++ [(k, v)] := by
  induction m with
  | nil => rfl
  | cons q qs ih =>
    have hq : q.1 ≠ k := h q (by simp)
    simp only [objSet, if_neg hq, List.cons_append, List.cons.injEq, true_and]
    exact ih (fun p hp => h p (List.mem_cons_of_mem _ hp))

theorem applyEntries_fresh {κ ν : Type} [DecidableEq κ] {es : List (κ × ν)} :
    ∀ {m : List (κ × ν)}, (∀ e ∈ es, ∀ p ∈ m, p.1 ≠ e.1) →
    (es.map Prod.fst).Nodup → applyEntries m es = m ++ es := by
  induction es with
  | nil => intro m _ _; simp [applyEntries]
  | cons e es ih =>
    intro m hfresh hnodup
    have h1 : objSet m e.1 e.2 = m ++ [e] := objSet_fresh (fun p hp => hfresh e (by simp) p hp) e.2
    have hnodup2 : e.1 ∉ es.map Prod.fst ∧ (es.map Prod.fst).Nodup := by
      have hmap : (List.map Prod.fst (e :: es)) = e.1 :: es.map Prod.fst := rfl
      rw [hmap] at hnodup
      exact List.nodup_cons.mp hnodup
    have h2 : ∀ x ∈ es, ∀ p ∈ m ++ [e], p.1 ≠ x.1 := by
      intro x hx p hp
      rcases List.mem_append.mp hp with hpm | hpe
      · exact hfresh x (List.mem_cons_of_mem _ hx) p hpm
      · have hpe2 : p = e := by simpa using hpe
        subst hpe2
        intro hcontra
        exact hnodup2.1 (by rw [hcontra]; exact List.mem_map_of_mem _ hx)
    have h3 : (es.map Prod.fst).Nodup := hnodup2.2
    calc applyEntries m (e :: es)
        = applyEntries (objSet m e.1 e.2) es := rfl
      _ = applyEntries (m ++ [e]) es := by rw [h1]
      _ = (m ++ [e]) ++ es := ih h2 h3
      _ = m ++ (e :: es) := by simp

theorem objGet_applyEntries {κ ν : Type} [DecidableEq κ] (k : κ) :
    ∀ (es : List (κ × ν)) (m : List (κ × ν)),
      objGet (applyEntries m es) k =
        match lastValue es k with
        | some v => some v
        | none => objGet m k := by
  intro es
  induction es using List.reverseRecOn with
  | nil => intro m; simp [applyEntries, lastValue]
  | append_singleton es e ih =>
    intro m
    have hsplit : applyEntries m (es ++ [e]) = objSet (applyEntries m es) e.1 e.2 := by
      simp [applyEntries, List.foldl_append]
    rw [hsplit, objGet_objSet]
    by_cases he : e.1 = k
    · have : lastValue (es ++ [e]) k = some e.2 := by
        simp [lastValue, List.filter_append, he]
      rw [this, if_pos he]
    · have : lastValue (es ++ [e]) k = lastValue es k := by
        simp [lastValue, List.filter_append, he]
      rw [this, if_neg he, ih]

theorem lineEntry_spec {line : String} {e : String × String} (h : lineEntry line = some e) :
    e.1 ≠ "" ∧ jsToLower e.1 ≠ "content-length" := by
  unfold lineEntry at h
  by_cases h1 : jsTrim line = "" <;> simp only [h1, if_pos, if_neg, if_true, if_false] at h
  · cases h
  by_cases h2 : isRequestLine (jsTrim line) = true <;> simp only [h2, if_true, if_false] at h
  · cases h
  rcases hidx : (jsTrim line).data.findIdx? (· = ':') with _ | idx <;> rw [hidx] at h
  · cases h
  by_cases h3 : jsTrim (String.mk ((jsTrim line).data.take idx)) = "" <;>
    simp only [h3, if_true, if_false] at h
  · cases h
  by_cases h4 :
      jsToLower (jsTrim (String.mk ((jsTrim line).data.take idx))) = "content-length" <;>
    simp only [h4, if_true, if_false] at h
  · cases h
  cases h
  exact ⟨h3, h4⟩

theorem parseRawHeaders_eq_applyEntries (raw : String) :
    parseRawHeaders raw = applyEntries [] (emittedEntries raw) := by
  unfold parseRawHeaders emittedEntries
  generalize splitLines raw = lines
  suffices h : ∀ m, lines.foldl
      (fun headers line => match lineEntry line with
        | none => headers
        | some (k, v) => objSet headers k v) m
      = applyEntries m (lines.filterMap lineEntry) by
    exact h []
  induction lines with
  | nil => intro m; rfl
  | cons l ls ih =>
    intro m
    cases hl : lineEntry l with
    | none => simp [List.foldl_cons, hl, List.filterMap_cons, ih]
    | some e =>
      cases e with
      | mk k v => simp [List.foldl_cons, hl, List.filterMap_cons, ih, applyEntries]

/-- C6: for every raw header block, the parsed header map contains no key
that ASCII-lowercases to `content-length` and no empty key, and for every
key the value kept is the one from the last line that emitted that key. -/
theorem c6_header_parse_filters_and_last_wins (raw : String) :
    (∀ p ∈ parseRawHeaders raw, jsToLower p.1 ≠ "content-length" ∧ p.1 ≠ "") ∧
    (∀ k, objGet (parseRawHeaders raw) k = lastValue (emittedEntries raw) k) := by
  constructor
  · intro p hp
    rw [parseRawHeaders_eq_applyEntries] at hp
    suffices h : ∀ (es : List (String × String)) (m : HeaderMap),
        (∀ q ∈ m, jsToLower q.1 ≠ "content-length" ∧ q.1 ≠ "") →
        (∀ q ∈ es, jsToLower q.1 ≠ "content-length" ∧ q.1 ≠ "") →
        ∀ q ∈ applyEntries m es, jsToLower q.1 ≠ "content-length" ∧ q.1 ≠ "" by
      refine (h (emittedEntries raw) [] (by simp) ?_ p hp).symm.imp id id |>.symm.imp id id
      intro q hq
      rcases List.mem_filterMap.mp hq with ⟨line, _, hline⟩
      have := lineEntry_spec hline
      exact ⟨this.2, this.1⟩
    intro es
    induction es with
    | nil => intro m hm _ q hq; exact hm q hq
    | cons e es ih =>
      intro m hm hes q hq
      refine ih (objSet m e.1 e.2) ?_ (fun x hx => hes x (List.mem_cons_of_mem _ hx)) q hq
      intro x hx
      rcases mem_objSet hx with h1 | h1
      · subst h1; exact hes e (by simp)
      · exact hm x h1
  · intro k
    rw [parseRawHeaders_eq_applyEntries, objGet_applyEntries]
    cases hl : lastValue (emittedEntries raw) k <;> simp [objGet]

/-- Witness for C6 at a concrete raw header block. -/
theorem c6_header_parse_filters_and_last_wins_witness :
    objGet (parseRawHeaders "Dup: 1\r\nDup: 2\nContent-Length: 9\nHost: x") "Dup" = some "2" ∧
    ("Content-Length", "9") ∉ parseRawHeaders "Dup: 1\r\nDup: 2\nContent-Length: 9\nHost: x" := by
  constructor
  · rw [(c6_header_parse_filters_and_last_wins
      "Dup: 1\r\nDup: 2\nContent-Length: 9\nHost: x").2 "Dup"]
    decide
  · intro hmem
    have h := (c6_header_parse_filters_and_last_wins
      "Dup: 1\r\nDup: 2\nContent-Length: 9\nHost: x").1 _ hmem
    exact h.1 (by decide)

/-- C7: merging the default content type adds exactly one leading
`Content-Type: application/json` entry when no case-insensitive
`content-type` key exists, leaving every pre-existing entry unchanged, and
returns the map unchanged when such a key exists. -/
theorem c7_merge_default_content_type (h : HeaderMap) :
    ((∀ p ∈ h, jsToLower p.1 ≠ "content-type") → (h.map Prod.fst).Nodup →
      mergeDefaultJsonContentType h = ("Content-Type", "application/json") :: h) ∧
    ((∃ p ∈ h, jsToLower p.1 = "content-type") → mergeDefaultJsonContentType h = h) := by
  constructor
  · intro hno hnodup
    have hfind : h.find? (fun p => jsToLower p.1 = "content-type") = none := by
      rw [List.find?_eq_none]
      intro p hp
      simpa using hno p hp
    unfold mergeDefaultJsonContentType
    rw [hfind]
    have : (∀ e ∈ h, ∀ p ∈ [(("Content-Type" : String), ("application/json" : String))],
        p.1 ≠ e.1) := by
      intro e he p hp
      have hp2 : p = ("Content-Type", "application/json") := by simpa using hp
      subst hp2
      intro hcontra
      exact hno e he (by rw [← hcontra]; decide)
    exact applyEntries_fresh this hnodup
  · intro hex
    have hfind : (h.find? (fun p => jsToLower p.1 = "content-type")).isSome := by
      rw [List.find?_isSome]
      rcases hex with ⟨p, hp, hlow⟩
      exact ⟨p, hp, by simpa using hlow⟩
    unfold mergeDefaultJsonContentType
    cases hf : h.find? (fun p => jsToLower p.1 = "content-type") with
    | none => rw [hf] at hfind; cases hfind
    | some p => rfl

/-- Witness for C7 at concrete header maps. -/
theorem c7_merge_default_content_type_witness :
    mergeDefaultJsonContentType [("Host", "a"), ("X-Y", "b")] =
      [("Content-Type", "application/json"), ("Host", "a"), ("X-Y", "b")] ∧
    mergeDefaultJsonContentType [("CONTENT-type", "text/plain")] =
      [("CONTENT-type", "text/plain")] := by
  constructor
  · exact (c7_merge_default_content_type [("Host", "a"), ("X-Y", "b")]).1
      (by decide) (by decide)
  · exact (c7_merge_default_content_type [("CONTENT-type", "text/plain")]).2
      ⟨("CONTENT-type", "text/plain"), by simp, by decide⟩

/-! ## Session wordlist tokenization (`GraphQLPage.tsx`) -/

/-- The regex class `[A-Za-z0-9]`. -/
def isAlnumAscii (c : Char) : Bool :=
  ('A' ≤ c && c ≤ 'Z') || ('a' ≤ c && c ≤ 'z') || ('0' ≤ c && c ≤ '9')

/-- The regex class `[a-z0-9]` (first group of the camelCase boundary). -/
def isLowerDigit (c : Char) : Bool :=
  ('a' ≤ c && c ≤ 'z') || ('0' ≤ c && c ≤ '9')

/-- The regex class `[A-Z]`. -/
def isUpperAscii (c : Char) : Bool :=
  'A' ≤ c && c ≤ 'Z'

/-- The regex class `[\s_\-]`. -/
def isWordSep (c : Char) : Bool :=
  isJsWhitespace c || c = '_' || c = '-'

/-- JS `str.split(/sep+/)` for a character class `sep`: split at every maximal
run of separator characters, keeping the (possibly empty) pieces between
runs and at the ends. -/
def splitRuns (sep : Char → Bool) : List Char → List (List Char)
  | [] => [[]]
  | c :: cs =>
    let rest := splitRuns sep cs
    if sep c then
      match cs with
      | [] => [] :: rest
      | d :: _ => if sep d then rest else [] :: rest
    else
      match rest with
      | [] => [[c]]
      | p :: ps => (c :: p) :: ps

/-- JS `piece.replace(/([a-z0-9])([A-Z])/g, '$1 $2')`: insert a space between
a lowercase letter or digit and an immediately following uppercase letter.
(The global regex consumes two characters per match, but the second is
uppercase and so can never start another match, so the pairwise scan is
equivalent.) -/
def camelSpace : List Char → List Char
  | [] => []
  | [c] => [c]
  | a :: b :: rest =>
    if isLowerDigit a && isUpperAscii b then
      a :: ' ' :: camelSpace (b :: rest)
    else
      a :: camelSpace (b :: rest)

/-- `splitWordsTokenize` from `GraphQLPage.tsx`: split on non-alphanumeric
runs, insert camelCase boundaries, split again on whitespace/underscore/
hyphen, lowercase each surviving token. -/
def splitWordsTokenize (token : String) : List String :=
  if token = "" then []
  else
    (splitRuns (fun c => !isAlnumAscii c) token.data).foldl
      (fun parts piece =>
        if piece.isEmpty then parts
        else
          (splitRuns isWordSep (camelSpace piece)).foldl
            (fun parts sub =>
              if sub.isEmpty then parts
              else parts ++ [String.mk (sub.map Char.toLower)])
            parts)
      []

/-- JS `Set.prototype.add`: insertion-ordered, duplicates collapsed. -/
def setAdd (s : List String) (w : String) : List String :=
  if w ∈ s then s else s ++ [w]

/-- `addWord` from `GraphQLPage.tsx`: skip empty words, add the lowercased
whole identifier, then every token of `splitWordsTokenize`. -/
def addWord (s : List String) (w : String) : List String :=
  if w = "" then s
  else (splitWordsTokenize w).foldl setAdd (setAdd s (jsToLower w))

/-- C8: tokenizing `getUserData` into an empty session wordlist yields the
set containing `get`, `user`, `data` and `getuserdata`, and tokenizing
`user_profile` yields `user`, `profile` and `user_profile` (camelCase
boundaries split, segments lowercased, plus the lowercased whole
identifier). -/
theorem c8_tokenize_identifiers :
    addWord [] "getUserData" = ["getuserdata", "get", "user", "data"] ∧
    "get" ∈ addWord [] "getUserData" ∧
    "user" ∈ addWord [] "getUserData" ∧
    "data" ∈ addWord [] "getUserData" ∧
    "getuserdata" ∈ addWord [] "getUserData" ∧
    addWord [] "user_profile" = ["user_profile", "user", "profile"] ∧
    "user" ∈ addWord [] "user_profile" ∧
    "profile" ∈ addWord [] "user_profile" ∧
    "user_profile" ∈ addWord [] "user_profile" := by
  decide

/-! ## JSON values and platform oracles

`JSON.parse`, `JSON.stringify`, `fetch` and `performance.now` are platform
builtins, so they enter the embedding as explicit oracle parameters; every
piece of repository control flow around them is translated directly. -/

/-- A JSON value (field values are carried opaquely; the code under
verification never inspects parsed variables). -/
inductive Json where
  | null
  | bool (b : Bool)
  | num (n : Int)
  | str (s : String)
  | arr (elems : List Json)
  | obj (fields : List (String × Json))

/-- Oracle for `JSON.parse`: the parsed value, or the message of the thrown
`SyntaxError`. -/
abbrev JsonParseFn := String → Except String Json

/-- Oracle for `JSON.stringify({ query, variables })`. -/
abbrev StringifyFn := String → Json → String

/-- `safeJsonParse` from `GraphQLPage.tsx`: `JSON.parse` in a `try`,
`undefined` on any throw. -/
def safeJsonParse (parse : JsonParseFn) (text : String) : Option Json :=
  match parse text with
  | .ok v => some v
  | .error _ => none

/-- The body object built by the workbench `onSend` (`GraphQLPage.tsx`):
`{ query }` plus `variables` from `safeJsonParse`, defaulting to the empty
object when parsing fails. -/
def onSendBody (parse : JsonParseFn) (query variablesText : String) : Json :=
  Json.obj [("query", Json.str query),
            ("variables", (safeJsonParse parse variablesText).getD (Json.obj []))]

/-! ## The extended fuzzer (`Fuzzer.tsx`) -/

/-- The replacement marker: the selected text and its character offsets
(`from` / `to` in the source; `from` is a Lean keyword). -/
structure ReplacementMarker where
  text : String
  fromOff : Nat
  toOff : Nat
deriving DecidableEq

/-- A fuzz result row. -/
structure FuzzResult where
  requestNum : Nat
  statusCode : String
  contentLength : String
  timeMs : Nat
  requestBody : String
  responseBody : String
  responseHeaders : HeaderMap
  wordlistItem : String
deriving DecidableEq, Inhabited

/-- `parseWordlist` from `Fuzzer.tsx`. -/
def parseWordlist (wordlistText : String) : List String :=
  (((splitLines wordlistText).map jsTrim).filter (fun line => 0 < line.length))

/-- `replaceTextInQuery` from `Fuzzer.tsx`:
`query.substring(0, marker.from) + replacement + query.substring(marker.to)`
(JS `substring` clamps out-of-range offsets, as `take`/`drop` do). -/
def replaceTextInQuery (query : String) (marker : ReplacementMarker)
    (replacement : String) : String :=
  String.mk (query.data.take marker.fromOff) ++ replacement ++
    String.mk (query.data.drop marker.toOff)

/-- The fuzzer configuration state feeding a run (the UI clamp keeps
`threads` in 1..50, see the thread-count theorems). -/
structure FuzzConfig where
  url : String
  headersRaw : String
  query : String
  variablesText : String
  useProxy : Bool
  proxyUrl : String
  replacementMarker : Option ReplacementMarker
  threads : Nat
  delayMs : Nat

/-- Lines 151–154: the outgoing query, spliced from the *original* query
state when a marker is present. -/
def builtQuery (cfg : FuzzConfig) (wordlistItem : String) : String :=
  match cfg.replacementMarker with
  | some marker => replaceTextInQuery cfg.query marker wordlistItem
  | none => cfg.query

/-- `cfg.variables || '{}'` (only the empty string is falsy here). -/
def variablesOrDefault (variablesText : String) : String :=
  if variablesText = "" then "\x7b\x7d" else variablesText

/-- The parsed JSON body the proxy returns to the fuzzer (`summary`).
`error` is a string field or absent; JS truthiness makes an empty string
behave like absence. -/
structure ProxySummary where
  error : Option String := none
  status : Option Int := none
  body : Option String := none
  headers : Option HeaderMap := none

/-- Outcome of the `fetch` to the proxy: a thrown error (with its `name` and
`message`) or a parsed summary. -/
inductive ProxyFetchOutcome where
  | throws (name : String) (msg : String)
  | reply (summary : ProxySummary)

/-- Outcome of the direct `fetch` to the target. -/
inductive DirectFetchOutcome where
  | throws (name : String) (msg : String)
  | reply (status : Nat) (body : String) (headers : HeaderMap)

/-- Result of one `sendSingleRequest` call: a returned row, or a re-thrown
`AbortError`. -/
inductive ReqResult where
  | ok (r : FuzzResult)
  | abortThrown (msg : String)

/-- Whether a request completed with a row. -/
def ReqResult.isOk : ReqResult → Bool
  | .ok _ => true
  | .abortThrown _ => false

/-- The error row built in the `catch` block for a non-abort throw
(lines 230–239): `Error: ${err.message || 'Unknown'}`. -/
def errorRow (requestNum : Nat) (msg : String) (timeMs : Nat)
    (wordlistItem : String) : FuzzResult :=
  { requestNum := requestNum,
    statusCode := "Error: " ++ (if msg = "" then "Unknown" else msg),
    contentLength := "0", timeMs := timeMs, requestBody := "",
    responseBody := "", responseHeaders := [], wordlistItem := wordlistItem }

/-- The non-error proxy branch (lines 187–191):
`summary.status?.toString() || 'Unknown'`, `summary.body || ''`,
`summary.headers || {}`. -/
def proxyStatusRow (summary : ProxySummary) (requestNum timeMs : Nat)
    (requestBodyStr wordlistItem : String) : FuzzResult :=
  let responseBodyStr := (summary.body).getD ""
  { requestNum := requestNum,
    statusCode := match summary.status with
      | some s => toString s
      | none => "Unknown",
    contentLength := toString responseBodyStr.length,
    timeMs := timeMs, requestBody := requestBodyStr,
    responseBody := responseBodyStr,
    responseHeaders := (summary.headers).getD [], wordlistItem := wordlistItem }

/-- Lines 181–191: dispatch on the truthiness of `summary.error`. -/
def proxySummaryRow (summary : ProxySummary) (requestNum timeMs : Nat)
    (requestBodyStr wordlistItem : String) : FuzzResult :=
  match summary.error with
  | some e =>
    if e = "" then proxyStatusRow summary requestNum timeMs requestBodyStr wordlistItem
    else
      { requestNum := requestNum, statusCode := "Proxy Error: " ++ e,
        contentLength := "0", timeMs := timeMs, requestBody := requestBodyStr,
        responseBody := "", responseHeaders := [], wordlistItem := wordlistItem }
  | none => proxyStatusRow summary requestNum timeMs requestBodyStr wordlistItem

/-- `sendSingleRequest` from `Fuzzer.tsx`.  The outgoing headers
`mergeDefaultJsonContentType (parseRawHeaders cfg.headersRaw)` are built
first and observable only through the fetch oracle; the query is spliced
from the original query text; `JSON.parse` of the variables happens inside
the `try`, so a parse throw is caught as a non-abort error; an `AbortError`
from the fetch is re-thrown. -/
def sendSingleRequest (parse : JsonParseFn) (stringify : StringifyFn)
    (cfg : FuzzConfig) (pnet : ProxyFetchOutcome) (dnet : DirectFetchOutcome)
    (requestNum : Nat) (wordlistItem : String) (timeMs : Nat) : ReqResult :=
  match parse (variablesOrDefault cfg.variablesText) with
  | .error msg => .ok (errorRow requestNum msg timeMs wordlistItem)
  | .ok vars =>
    let requestBodyStr := stringify (builtQuery cfg wordlistItem) vars
    if cfg.useProxy then
      match pnet with
      | .throws name msg =>
        if name = "AbortError" then .abortThrown msg
        else .ok (errorRow requestNum msg timeMs wordlistItem)
      | .reply summary =>
        .ok (proxySummaryRow summary requestNum timeMs requestBodyStr wordlistItem)
    else
      match dnet with
      | .throws name msg =>
        if name = "AbortError" then .abortThrown msg
        else .ok (errorRow requestNum msg timeMs wordlistItem)
      | .reply status body headers =>
        .ok { requestNum := requestNum, statusCode := toString status,
              contentLength := toString body.length, timeMs := timeMs,
              requestBody := requestBodyStr, responseBody := body,
              responseHeaders := headers, wordlistItem := wordlistItem }

/-- The ambient platform for a fuzz run: the JSON builtins, the fetch
outcome and elapsed time of each numbered request, and the state of the
shared abort signal before each dispatch/batch. -/
structure FuzzEnv where
  parse : JsonParseFn
  stringify : StringifyFn
  pnetF : Nat → String → ProxyFetchOutcome
  dnetF : Nat → String → DirectFetchOutcome
  times : Nat → Nat
  aborted : Nat → Bool

/-- One dispatched request of the run. -/
def stepR (env : FuzzEnv) (cfg : FuzzConfig) (n : Nat) (w : String) : ReqResult :=
  sendSingleRequest env.parse env.stringify cfg (env.pnetF n w) (env.dnetF n w) n w
    (env.times n)

/-- The row of a completed request (meaningful when `stepR` is `.ok`). -/
def okRow (env : FuzzEnv) (cfg : FuzzConfig) (n : Nat) (w : String) : FuzzResult :=
  match stepR env cfg n w with
  | .ok r => r
  | .abortThrown _ => default

/-- State threaded through the sequential loop: the accumulated results,
the progress counter, the dispatch log (requestNum, word) of every
`sendSingleRequest` call (an observation of the model), and the successive
values passed to `setResults`. -/
structure SeqState where
  results : List FuzzResult
  progressCount : Nat
  dispatched : List (Nat × String)
  displayTrace : List (List FuzzResult)

/-- The sequential loop of `startFuzzing` (lines 266–281): check the abort
signal, dispatch, append the row; an `AbortError` thrown by
`sendSingleRequest` propagates to the outer catch and ends the loop. -/
def runSeqAux (env : FuzzEnv) (cfg : FuzzConfig) :
    List String → Nat → SeqState → SeqState
  | [], _, st => st
  | w :: ws, count, st =>
    if env.aborted count then st
    else
      let st2 := { st with dispatched := st.dispatched ++ [(count + 1, w)] }
      match stepR env cfg (count + 1) w with
      | .ok r =>
        runSeqAux env cfg ws (count + 1)
          { results := st2.results ++ [r],
            progressCount := st2.progressCount + 1,
            dispatched := st2.dispatched,
            displayTrace := st2.displayTrace ++ [st2.results ++ [r]] }
      | .abortThrown _ => st2

/-- Consecutive batches: `wordlist.slice(i, i + threads)` for
`i = 0, threads, 2*threads, …` (used with `threads ≥ 1`). -/
def chunksOf {α : Type} (n : Nat) : List α → List (List α)
  | [] => []
  | w :: ws => (w :: ws.take (n - 1)) :: chunksOf n (ws.drop (n - 1))
termination_by l => l.length
decreasing_by simp [List.length_drop]; omega

/-- The parallel dispatch of one batch: requests numbered consecutively from
`n0` (`i + batchIndex + 1` in the source), outcomes in dispatch order (the
order `Promise.allSettled` resolves with, erasing completion order). -/
def batchOutcomes (env : FuzzEnv) (cfg : FuzzConfig) :
    Nat → List String → List ((Nat × String) × ReqResult)
  | _, [] => []
  | n0, w :: ws => ((n0, w), stepR env cfg n0 w) :: batchOutcomes env cfg (n0 + 1) ws

/-- State threaded through the concurrent loop. -/
structure ConcState where
  resultMap : List (Nat × FuzzResult)
  processedCount : Nat
  dispatched : List (Nat × String)
  displayTrace : List (List FuzzResult)

/-- The concurrent loop of `startFuzzing` (lines 289–322): per batch, await
all outcomes, record each fulfilled row in the result map keyed by its
request number, then recompute the displayed list by walking request
numbers `1..processedCount` through the map. -/
def runConcAux (env : FuzzEnv) (cfg : FuzzConfig) :
    List (List String) → Nat → ConcState → ConcState
  | [], _, st => st
  | batch :: rest, k, st =>
    if env.aborted k then st
    else
      let outs := batchOutcomes env cfg (k * cfg.threads + 1) batch
      let folded := outs.foldl
        (fun (acc : List (Nat × FuzzResult) × Nat) o =>
          match o.2 with
          | .ok r => (objSet acc.1 r.requestNum r, acc.2 + 1)
          | .abortThrown _ => acc)
        (st.resultMap, st.processedCount)
      let ordered := (List.range folded.2).filterMap (fun j => objGet folded.1 (j + 1))
      runConcAux env cfg rest (k + 1)
        { resultMap := folded.1, processedCount := folded.2,
          dispatched := st.dispatched ++ outs.map (fun o => o.1),
          displayTrace := st.displayTrace ++ [ordered] }

/-- The observable outcome of `startFuzzing`: final results and progress,
the running flag (reset in `finally`), the dispatch log and the display
trace. -/
structure FuzzRun where
  results : List FuzzResult
  progressCount : Nat
  isRunning : Bool
  dispatched : List (Nat × String)
  displayTrace : List (List FuzzResult)

/-- `startFuzzing` from `Fuzzer.tsx`: `none` when the early validation
alerts fire (empty wordlist or no marker); otherwise run sequentially when
`threads === 1`, else in bounded batches; `finally` clears the running
flag. -/
def startFuzzing (env : FuzzEnv) (cfg : FuzzConfig) (wordlistText : String) :
    Option FuzzRun :=
  let wordlist := parseWordlist wordlistText
  if wordlist.length = 0 then none
  else if cfg.replacementMarker.isNone then none
  else if cfg.threads = 1 then
    let st := runSeqAux env cfg wordlist 0
      { results := [], progressCount := 0, dispatched := [], displayTrace := [] }
    some { results := st.results, progressCount := st.progressCount,
           isRunning := false, dispatched := st.dispatched,
           displayTrace := st.displayTrace }
  else
    let st := runConcAux env cfg (chunksOf cfg.threads wordlist) 0
      { resultMap := [], processedCount := 0, dispatched := [], displayTrace := [] }
    some { results := (st.displayTrace.getLast?).getD [],
           progressCount := st.processedCount, isRunning := false,
           dispatched := st.dispatched, displayTrace := st.displayTrace }

/-! ## Thread-count and delay clamping (`Fuzzer.tsx` lines 542 and 559) -/

/-- JS `x || d` for a number that may be `NaN` (modelled as `none`): falsy
for `NaN` and `0`. -/
def jsOrInt (r : Option Int) (d : Int) : Int :=
  match r with
  | some n => if n = 0 then d else n
  | none => d

/-- `setThreads(Math.max(1, Math.min(50, parseInt(v) || 1)))`, over every
possible `parseInt` outcome. -/
def updateThreads (r : Option Int) : Int :=
  max 1 (min 50 (jsOrInt r 1))

/-- `setDelayMs(Math.max(0, parseInt(v) || 0))`. -/
def updateDelayMs (r : Option Int) : Int :=
  max 0 (jsOrInt r 0)

/-- The reachable values of the `threads` state: `useState(1)` plus any
sequence of input updates. -/
inductive ThreadsReachable : Int → Prop
  | init : ThreadsReachable 1
  | update (r : Option Int) (v : Int) :
      ThreadsReachable v → ThreadsReachable (updateThreads r)

/-- The reachable values of the `delayMs` state: `useState(0)` plus any
sequence of input updates. -/
inductive DelayReachable : Int → Prop
  | init : DelayReachable 0
  | update (r : Option Int) (v : Int) :
      DelayReachable v → DelayReachable (updateDelayMs r)

/-! ## Forwarding proxy (`server/proxy.mjs`) -/

/-- A Node response header value: `string | string[] | undefined`. -/
inductive NodeHdrVal where
  | str (s : String)
  | arr (ss : List String)
  | undef

/-- Lines 51–55 of `proxy.mjs`: flatten multi-value response headers with
`join(', ')`, stringify single values, skip `undefined`. -/
def flattenResponseHeaders (hs : List (String × NodeHdrVal)) : HeaderMap :=
  hs.foldl
    (fun acc p =>
      match p.2 with
      | .str s => objSet acc p.1 s
      | .arr ss => objSet acc p.1 (String.intercalate ", " ss)
      | .undef => acc)
    []

/-- Lines 56–61 of `proxy.mjs`: the object `forward` resolves with —
`{status: res.statusCode || 0, statusText: res.statusMessage || '',
headers, body}`. -/
def forwardEnvelope (statusCode : Option Nat) (statusMessage : Option String)
    (hs : List (String × NodeHdrVal)) (text : String) : List (String × Json) :=
  [("status", Json.num ((statusCode.getD 0 : Nat) : Int)),
   ("statusText", Json.str (statusMessage.getD "")),
   ("headers", Json.obj ((flattenResponseHeaders hs).map (fun p => (p.1, Json.str p.2)))),
   ("body", Json.str text)]

/-- The outcome of the relayed upstream request: a response (with Node's
possibly-missing status code / message), or a rejection (connection error,
bad URL, missing url field, unparsable proxy request body, …). -/
inductive ForwardOutcome where
  | resolved (statusCode : Option Nat) (statusMessage : Option String)
      (hs : List (String × NodeHdrVal)) (text : String)
  | rejected (errMsg : String)

/-- An HTTP response sent by the proxy: status code plus the JSON object
serialized into the body. -/
structure ProxyHttpResponse where
  statusCode : Nat
  body : List (String × Json)

/-- Lines 89–118 of `proxy.mjs`: the `POST /forward` handler around the
`forward` call — 200 with the envelope on success, 500 with
`{error: String(e?.message || e)}` on any caught exception. -/
def handleForwardRequest : ForwardOutcome → ProxyHttpResponse
  | .resolved sc sm hs text => { statusCode := 200, body := forwardEnvelope sc sm hs text }
  | .rejected msg => { statusCode := 500, body := [("error", Json.str msg)] }

/-- C5 (code divergence): at a non-2xx upstream status the proxy's success
envelope has exactly the keys `status`, `statusText`, `headers`, `body` —
there is no `isError` field — and a proxy-side exception yields HTTP 500
whose body has exactly the key `error` — no `isError`, no `status: 0`. -/
theorem c5_proxy_envelope_missing_isError :
    ((handleForwardRequest (.resolved (some 500) (some "Internal Server Error")
        [] "oops")).statusCode = 200 ∧
     (handleForwardRequest (.resolved (some 500) (some "Internal Server Error")
        [] "oops")).body.map Prod.fst = ["status", "statusText", "headers", "body"] ∧
     "isError" ∉ (handleForwardRequest (.resolved (some 500)
        (some "Internal Server Error") [] "oops")).body.map Prod.fst) ∧
    ((handleForwardRequest (.rejected "connect ECONNREFUSED")).statusCode = 500 ∧
     (handleForwardRequest (.rejected "connect ECONNREFUSED")).body.map Prod.fst
        = ["error"] ∧
     "isError" ∉ (handleForwardRequest
        (.rejected "connect ECONNREFUSED")).body.map Prod.fst ∧
     "status" ∉ (handleForwardRequest
        (.rejected "connect ECONNREFUSED")).body.map Prod.fst) := by
  exact ⟨⟨rfl, rfl, by decide⟩, rfl, rfl, by decide, by decide⟩

/-! ## Thread-count / delay invariants -/

theorem updateThreads_mem (r : Option Int) :
    1 ≤ updateThreads r ∧ updateThreads r ≤ 50 := by
  unfold updateThreads
  constructor
  · exact le_max_left 1 _
  · exact max_le (by norm_num) (min_le_left 50 _)

theorem chunksOf_spec {α : Type} {n : Nat} (hn : 1 ≤ n) :
    ∀ (l : List α), (∀ b ∈ chunksOf n l, 0 < b.length ∧ b.length ≤ n) ∧
      (chunksOf n l).flatten = l := by
  intro l
  generalize hlen : l.length = len
  induction len using Nat.strong_induction_on generalizing l with
  | _ len ih =>
    cases l with
    | nil => simp [chunksOf]
    | cons w ws =>
      have hstep : chunksOf n (w :: ws) =
          (w :: ws.take (n - 1)) :: chunksOf n (ws.drop (n - 1)) := by
        rw [chunksOf]
      have hlt : (ws.drop (n - 1)).length < len := by
        subst hlen
        simp only [List.length_drop, List.length_cons]
        omega
      obtain ⟨ihb, ihj⟩ := ih _ hlt (ws.drop (n - 1)) rfl
      constructor
      · intro b hb
        rw [hstep] at hb
        rcases List.mem_cons.mp hb with hb | hb
        · subst hb
          refine ⟨by simp, ?_⟩
          simp only [List.length_cons, List.length_take]
          omega
        · exact ihb b hb
      · rw [hstep]
        simp only [List.flatten_cons, ihj, List.cons_append, List.take_append_drop]

/-- C10: every reachable `threads` value is an integer in 1..50 (the update
clamps, defaulting to 1 on unparsable or zero input), every reachable
`delayMs` value is non-negative, and consequently no batch of the
concurrent dispatch ever exceeds 50 requests. -/
theorem c10_threads_delay_clamped :
    (∀ v, ThreadsReachable v → 1 ≤ v ∧ v ≤ 50) ∧
    (∀ v, DelayReachable v → 0 ≤ v) ∧
    (∀ v (ws : List String), ThreadsReachable v →
      ∀ b ∈ chunksOf v.toNat ws, b.length ≤ 50) := by
  have hth : ∀ v, ThreadsReachable v → 1 ≤ v ∧ v ≤ 50 := by
    intro v h
    induction h with
    | init => norm_num
    | update r v _ _ => exact updateThreads_mem r
  refine ⟨hth, ?_, ?_⟩
  · intro v h
    induction h with
    | init => norm_num
    | update r v _ _ =>
      unfold updateDelayMs
      exact le_max_left 0 _
  · intro v ws hv b hb
    obtain ⟨h1, h50⟩ := hth v hv
    have hn : 1 ≤ v.toNat := by omega
    have hle : b.length ≤ v.toNat := ((chunksOf_spec hn ws).1 b hb).2
    have : v.toNat ≤ 50 := by omega
    omega

/-- Witness for C10 at concrete inputs. -/
theorem c10_threads_delay_clamped_witness :
    (1 ≤ updateThreads (some 99) ∧ updateThreads (some 99) ≤ 50) ∧
    (0 ≤ updateDelayMs (some (-7))) ∧
    (["a"].length ≤ 50) := by
  refine ⟨c10_threads_delay_clamped.1 _ (.update (some 99) 1 .init),
    c10_threads_delay_clamped.2.1 _ (.update (some (-7)) 0 .init), ?_⟩
  have h1 : chunksOf (updateThreads (some 1)).toNat ["a"] = [["a"]] := by
    rw [chunksOf]
    simp [chunksOf, updateThreads, jsOrInt]
  exact c10_threads_delay_clamped.2.2 (updateThreads (some 1)) ["a"]
    (.update (some 1) 1 .init) ["a"] (by rw [h1]; simp)

/-! ## Per-request lemmas -/

theorem proxySummaryRow_fields (summary : ProxySummary) (n t : Nat) (b w : String) :
    (proxySummaryRow summary n t b w).requestNum = n ∧
    (proxySummaryRow summary n t b w).wordlistItem = w := by
  unfold proxySummaryRow proxyStatusRow
  cases hsum : summary.error with
  | none => simp
  | some e => by_cases he : e = "" <;> simp [he]

/-- Every returned row of `sendSingleRequest` carries the request number and
word it was dispatched with. -/
theorem stepR_ok_fields {env : FuzzEnv} {cfg : FuzzConfig} {n : Nat} {w : String}
    {r : FuzzResult} (h : stepR env cfg n w = .ok r) :
    r.requestNum = n ∧ r.wordlistItem = w := by
  unfold stepR sendSingleRequest at h
  repeat' split at h
  all_goals cases h
  all_goals try exact ⟨rfl, rfl⟩
  all_goals exact proxySummaryRow_fields _ _ _ _ _

/-- A completed request is exactly `.ok` of its `okRow`. -/
theorem stepR_eq_ok_okRow {env : FuzzEnv} {cfg : FuzzConfig} {n : Nat} {w : String}
    (h : (stepR env cfg n w).isOk = true) :
    stepR env cfg n w = .ok (okRow env cfg n w) := by
  unfold okRow
  cases hs : stepR env cfg n w with
  | ok r => rfl
  | abortThrown m => rw [hs] at h; cases h

theorem okRow_fields {env : FuzzEnv} {cfg : FuzzConfig} {n : Nat} {w : String}
    (h : (stepR env cfg n w).isOk = true) :
    (okRow env cfg n w).requestNum = n ∧ (okRow env cfg n w).wordlistItem = w :=
  stepR_ok_fields (stepR_eq_ok_okRow h)

/-- A direct-mode fetch throw that is not an `AbortError` is recorded as an
error row (the `catch` block, lines 222–240). -/
theorem stepR_direct_error {env : FuzzEnv} {cfg : FuzzConfig} {n : Nat} {w : String}
    {name msg : String} {v : Json}
    (hu : cfg.useProxy = false)
    (hp : env.parse (variablesOrDefault cfg.variablesText) = .ok v)
    (hd : env.dnetF n w = .throws name msg)
    (hn : name ≠ "AbortError") :
    stepR env cfg n w = .ok (errorRow n msg (env.times n) w) := by
  unfold stepR sendSingleRequest
  rw [hp]
  simp [hu, hd, hn]

/-- A direct-mode `AbortError` is re-thrown (lines 226–228). -/
theorem stepR_direct_abort {env : FuzzEnv} {cfg : FuzzConfig} {n : Nat} {w : String}
    {msg : String} {v : Json}
    (hu : cfg.useProxy = false)
    (hp : env.parse (variablesOrDefault cfg.variablesText) = .ok v)
    (hd : env.dnetF n w = .throws "AbortError" msg) :
    stepR env cfg n w = .abortThrown msg := by
  unfold stepR sendSingleRequest
  rw [hp]
  simp [hu, hd]

/-- C9: a proxy response body with a non-empty `error` field produces a row
whose status is exactly `Proxy Error: <error>` and whose content length is
the string `0`. -/
theorem c9_proxy_error_row (env : FuzzEnv) (cfg : FuzzConfig) (n : Nat) (w : String)
    (summary : ProxySummary) (e : String) (v : Json)
    (hu : cfg.useProxy = true)
    (hp : env.parse (variablesOrDefault cfg.variablesText) = .ok v)
    (hnet : env.pnetF n w = .reply summary)
    (herr : summary.error = some e) (hne : e ≠ "") :
    stepR env cfg n w = .ok
      { requestNum := n, statusCode := "Proxy Error: " ++ e, contentLength := "0",
        timeMs := env.times n,
        requestBody := env.stringify (builtQuery cfg w) v, responseBody := "",
        responseHeaders := [], wordlistItem := w } := by
  unfold stepR sendSingleRequest
  rw [hp]
  simp only [hu, if_true]
  rw [hnet]
  unfold proxySummaryRow
  simp [herr, hne]

/-! ## Concrete fixtures -/

/-- A concrete `JSON.parse` oracle for witnesses: accepts only the literal
empty object. -/
def fixParse : JsonParseFn := fun s =>
  if s = "\x7b\x7d" then .ok (Json.obj []) else .error "Unexpected token"

/-- A concrete serializer oracle for witnesses. -/
def fixStringify : StringifyFn := fun q _ => q

/-- A concrete marker covering `users` in the fixture query. -/
def fixMarker : ReplacementMarker := { text := "users", fromOff := 2, toOff := 7 }

/-- Proxy-mode fixture configuration. -/
def fixCfgProxy : FuzzConfig :=
  { url := "http://target/graphql", headersRaw := "",
    query := "\x7b users \x7d", variablesText := "", useProxy := true,
    proxyUrl := "http://localhost:8787/forward",
    replacementMarker := some fixMarker, threads := 1, delayMs := 0 }

/-- An environment whose proxy reports `Connection refused` for every
request. -/
def fixEnvProxyErr : FuzzEnv :=
  { parse := fixParse, stringify := fixStringify,
    pnetF := fun _ _ => .reply { error := some "Connection refused" },
    dnetF := fun _ _ => .reply 200 "" [], times := fun _ => 12,
    aborted := fun _ => false }

/-- Witness for C9 at a concrete request. -/
theorem c9_proxy_error_row_witness :
    stepR fixEnvProxyErr fixCfgProxy 1 "adminUsers" = .ok
      { requestNum := 1, statusCode := "Proxy Error: Connection refused",
        contentLength := "0", timeMs := 12,
        requestBody := fixStringify (builtQuery fixCfgProxy "adminUsers") (Json.obj []),
        responseBody := "", responseHeaders := [], wordlistItem := "adminUsers" } :=
  c9_proxy_error_row fixEnvProxyErr fixCfgProxy 1 "adminUsers" _
    "Connection refused" (Json.obj []) rfl rfl rfl rfl (by decide)

/-- Direct-mode fixture configuration with malformed (non-empty) variables
text. -/
def fixCfgBadVars : FuzzConfig :=
  { url := "http://target/graphql", headersRaw := "", query := "\x7b users \x7d",
    variablesText := "\x7bbad", useProxy := false, proxyUrl := "",
    replacementMarker := some fixMarker, threads := 1, delayMs := 0 }

/-- A direct-mode environment whose target always answers 200. -/
def fixEnvDirect : FuzzEnv :=
  { parse := fixParse, stringify := fixStringify,
    pnetF := fun _ _ => .reply {}, dnetF := fun _ _ => .reply 200 "\x7b\x7d" [],
    times := fun _ => 0, aborted := fun _ => false }

/-- The same environment with a target answering 500 (used to show the
outcome ignores the network when variables fail to parse). -/
def fixEnvDirect500 : FuzzEnv :=
  { fixEnvDirect with dnetF := fun _ _ => .reply 500 "ERR" [] }

/-- C3 counterexample: in a fuzz iteration, malformed (non-empty) variables
text is *not* recovered with an empty object — `JSON.parse` throws inside
the `try`, the catch records a synthesized error row (empty request body,
nothing sent), and the outcome is identical whatever the network would have
answered. -/
theorem c3_counterexample_fuzzer_not_recovered :
    stepR fixEnvDirect fixCfgBadVars 1 "admin" = .ok
      { requestNum := 1, statusCode := "Error: Unexpected token",
        contentLength := "0", timeMs := 0, requestBody := "", responseBody := "",
        responseHeaders := [], wordlistItem := "admin" } ∧
    stepR fixEnvDirect500 fixCfgBadVars 1 "admin"
      = stepR fixEnvDirect fixCfgBadVars 1 "admin" :=
  ⟨rfl, rfl⟩

/-- C3 amended: the workbench single-send substitutes an empty object when
the variables text fails to parse; the fuzz iteration only defaults an
*empty* variables text to `{}`, and on a failing parse of non-empty
variables text it records an error row (`Error: <parse message>`) with no
request body and an outcome independent of the fetch oracles. -/
theorem c3_amended_variables_recovery
    (parse : JsonParseFn) (q vt msg : String) (env env2 : FuzzEnv)
    (cfg : FuzzConfig) (n : Nat) (w : String) :
    (parse vt = .error msg →
      onSendBody parse q vt =
        Json.obj [("query", Json.str q), ("variables", Json.obj [])]) ∧
    (variablesOrDefault "" = "\x7b\x7d") ∧
    (env.parse (variablesOrDefault cfg.variablesText) = .error msg →
      stepR env cfg n w = .ok (errorRow n msg (env.times n) w)) ∧
    (msg ≠ "" → (errorRow n msg (env.times n) w).statusCode = "Error: " ++ msg ∧
      (errorRow n msg (env.times n) w).requestBody = "") ∧
    (env2.parse = env.parse → env2.times = env.times →
      env.parse (variablesOrDefault cfg.variablesText) = .error msg →
      stepR env2 cfg n w = stepR env cfg n w) := by
  refine ⟨?_, rfl, ?_, ?_, ?_⟩
  · intro h
    simp [onSendBody, safeJsonParse, h]
  · intro h
    unfold stepR sendSingleRequest
    rw [h]
  · intro h
    exact ⟨by simp [errorRow, h], rfl⟩
  · intro hp ht h
    unfold stepR sendSingleRequest
    rw [hp, ht, h]

/-- Witness for C3 (amended) at concrete fixtures. -/
theorem c3_amended_variables_recovery_witness :
    onSendBody fixParse "q" "\x7bbad" =
      Json.obj [("query", Json.str "q"), ("variables", Json.obj [])] ∧
    stepR fixEnvDirect fixCfgBadVars 2 "w" =
      .ok (errorRow 2 "Unexpected token" 0 "w") ∧
    stepR fixEnvDirect500 fixCfgBadVars 2 "w"
      = stepR fixEnvDirect fixCfgBadVars 2 "w" := by
  have h := c3_amended_variables_recovery fixParse "q" "\x7bbad" "Unexpected token"
    fixEnvDirect fixEnvDirect500 fixCfgBadVars 2 "w"
  exact ⟨h.1 rfl, h.2.2.1 rfl, h.2.2.2.2 rfl rfl rfl⟩

/-! ## Sequential loop lemmas -/

/-- The rows of the first `m` completed requests, in ascending
request-number order. -/
def seqRows (env : FuzzEnv) (cfg : FuzzConfig) (ws : List String) (m : Nat) :
    List FuzzResult :=
  (List.range m).map (fun j => okRow env cfg (j + 1) (ws.getD j ""))

/-- The initial loop state set up by `startFuzzing`. -/
def initSeqState : SeqState :=
  { results := [], progressCount := 0, dispatched := [], displayTrace := [] }

/-- Reindexing helper: prepending the row of request `count+1` to the rows of
the tail equals the rows of the whole list. -/
theorem cons_shift_map {β : Type} (g : Nat → String → β) (w : String)
    (ws : List String) (count : Nat) :
    g (count + 1) w :: (List.range ws.length).map
        (fun j => g (count + 1 + j + 1) (ws.getD j ""))
      = (List.range (w :: ws).length).map
          (fun j => g (count + j + 1) ((w :: ws).getD j "")) := by
  simp only [List.length_cons, List.range_succ_eq_map, List.map_cons, List.map_map,
    List.getD_cons_zero, List.getD_cons_succ, Nat.add_zero]
  congr 1
  apply List.map_congr_left
  intro j _
  have h : count + (j + 1) + 1 = count + 1 + j + 1 := by omega
  simp [Function.comp, h]

theorem runSeqAux_all_ok (env : FuzzEnv) (cfg : FuzzConfig)
    (hab : ∀ k, env.aborted k = false) :
    ∀ (ws : List String) (count : Nat) (st : SeqState),
      (∀ j, j < ws.length → (stepR env cfg (count + j + 1) (ws.getD j "")).isOk = true) →
      (runSeqAux env cfg ws count st).results
          = st.results ++ (List.range ws.length).map
              (fun j => okRow env cfg (count + j + 1) (ws.getD j "")) ∧
      (runSeqAux env cfg ws count st).progressCount = st.progressCount + ws.length ∧
      (runSeqAux env cfg ws count st).dispatched
          = st.dispatched ++ (List.range ws.length).map
              (fun j => (count + j + 1, ws.getD j "")) := by
  intro ws
  induction ws with
  | nil => intro count st _; simp [runSeqAux]
  | cons w ws ih =>
    intro count st hok
    have hok0 : (stepR env cfg (count + 1) w).isOk = true := by
      have h := hok 0 (by simp)
      simpa using h
    have hstep : stepR env cfg (count + 1) w = .ok (okRow env cfg (count + 1) w) :=
      stepR_eq_ok_okRow hok0
    have hok2 : ∀ j, j < ws.length →
        (stepR env cfg (count + 1 + j + 1) (ws.getD j "")).isOk = true := by
      intro j hj
      have h := hok (j + 1) (by simpa using Nat.succ_lt_succ hj)
      have harith : count + (j + 1) + 1 = count + 1 + j + 1 := by omega
      rw [harith] at h
      simpa using h
    have hunfold : runSeqAux env cfg (w :: ws) count st =
        runSeqAux env cfg ws (count + 1)
          { results := st.results ++ [okRow env cfg (count + 1) w],
            progressCount := st.progressCount + 1,
            dispatched := st.dispatched ++ [(count + 1, w)],
            displayTrace := st.displayTrace ++
              [st.results ++ [okRow env cfg (count + 1) w]] } := by
      rw [runSeqAux]
      simp [hab count, hstep]
    obtain ⟨h1, h2, h3⟩ := ih (count + 1)
      { results := st.results ++ [okRow env cfg (count + 1) w],
        progressCount := st.progressCount + 1,
        dispatched := st.dispatched ++ [(count + 1, w)],
        displayTrace := st.displayTrace ++
          [st.results ++ [okRow env cfg (count + 1) w]] } hok2
    rw [hunfold]
    refine ⟨?_, ?_, ?_⟩
    · rw [h1]
      simp only [List.append_assoc, List.singleton_append]
      rw [cons_shift_map (fun n x => okRow env cfg n x) w ws count]
    · rw [h2]
      simp only [List.length_cons]
      omega
    · rw [h3]
      simp only [List.append_assoc, List.singleton_append]
      rw [cons_shift_map (fun n x => (n, x)) w ws count]

theorem runSeqAux_abort (env : FuzzEnv) (cfg : FuzzConfig)
    (hab : ∀ k, env.aborted k = false) :
    ∀ (t : Nat) (ws : List String) (count : Nat) (st : SeqState) (msg : String),
      (∀ j, j < t → (stepR env cfg (count + j + 1) (ws.getD j "")).isOk = true) →
      t < ws.length →
      stepR env cfg (count + t + 1) (ws.getD t "") = .abortThrown msg →
      (runSeqAux env cfg ws count st).results
          = st.results ++ (List.range t).map
              (fun j => okRow env cfg (count + j + 1) (ws.getD j "")) ∧
      (runSeqAux env cfg ws count st).progressCount = st.progressCount + t ∧
      (runSeqAux env cfg ws count st).dispatched
          = st.dispatched ++ (List.range (t + 1)).map
              (fun j => (count + j + 1, ws.getD j "")) := by
  intro t
  induction t with
  | zero =>
    intro ws count st msg _ hlen habort
    cases ws with
    | nil => simp at hlen
    | cons w ws =>
      have habort2 : stepR env cfg (count + 1) w = .abortThrown msg := by
        simpa using habort
      rw [runSeqAux]
      have hr1 : List.range 1 = [0] := rfl
      simp [hab count, habort2, hr1]
  | succ t ih =>
    intro ws count st msg hok hlen habort
    cases ws with
    | nil => simp at hlen
    | cons w ws =>
      have hok0 : (stepR env cfg (count + 1) w).isOk = true := by
        have h := hok 0 (by omega)
        simpa using h
      have hstep : stepR env cfg (count + 1) w = .ok (okRow env cfg (count + 1) w) :=
        stepR_eq_ok_okRow hok0
      have hok2 : ∀ j, j < t →
          (stepR env cfg (count + 1 + j + 1) (ws.getD j "")).isOk = true := by
        intro j hj
        have h := hok (j + 1) (by omega)
        have harith : count + (j + 1) + 1 = count + 1 + j + 1 := by omega
        rw [harith] at h
        simpa using h
      have habort2 : stepR env cfg (count + 1 + t + 1) (ws.getD t "") =
          .abortThrown msg := by
        have harith : count + (t + 1) + 1 = count + 1 + t + 1 := by omega
        rw [harith] at habort
        simpa using habort
      have hunfold : runSeqAux env cfg (w :: ws) count st =
          runSeqAux env cfg ws (count + 1)
            { results := st.results ++ [okRow env cfg (count + 1) w],
              progressCount := st.progressCount + 1,
              dispatched := st.dispatched ++ [(count + 1, w)],
              displayTrace := st.displayTrace ++
                [st.results ++ [okRow env cfg (count + 1) w]] } := by
        rw [runSeqAux]
        simp [hab count, hstep]
      obtain ⟨h1, h2, h3⟩ := ih ws (count + 1)
        { results := st.results ++ [okRow env cfg (count + 1) w],
          progressCount := st.progressCount + 1,
          dispatched := st.dispatched ++ [(count + 1, w)],
          displayTrace := st.displayTrace ++
            [st.results ++ [okRow env cfg (count + 1) w]] } msg hok2
        (by simpa using Nat.succ_lt_succ_iff.mp (by simpa using hlen)) habort2
      rw [hunfold]
      refine ⟨?_, ?_, ?_⟩
      · rw [h1]
        simp only [List.append_assoc, List.singleton_append]
        have hx : (List.range t).map (fun j => okRow env cfg (count + 1 + j + 1) (ws.getD j ""))
            = (List.range t).map (fun j => okRow env cfg (count + (j + 1) + 1) ((w :: ws).getD (j + 1) "")) := by
          apply List.map_congr_left
          intro j _
          have h : count + 1 + j + 1 = count + (j + 1) + 1 := by omega
          simp [h]
        rw [hx]
        congr 1
        simp only [List.range_succ_eq_map, List.map_cons, List.map_map,
          List.getD_cons_zero, Nat.add_zero]
        rfl
      · rw [h2]
        show st.progressCount + 1 + t = st.progressCount + (t + 1)
        omega
      · rw [h3]
        simp only [List.append_assoc, List.singleton_append]
        have hx : (List.range (t + 1)).map (fun j => (count + 1 + j + 1, ws.getD j ""))
            = (List.range (t + 1)).map (fun j => (count + (j + 1) + 1, (w :: ws).getD (j + 1) "")) := by
          apply List.map_congr_left
          intro j _
          have h : count + 1 + j + 1 = count + (j + 1) + 1 := by omega
          simp [h]
        rw [hx]
        congr 1
        simp only [List.range_succ_eq_map, List.map_cons, List.map_map,
          List.getD_cons_zero, Nat.add_zero]
        rfl

/-- `startFuzzing` in sequential mode reduces to the sequential loop. -/
theorem startFuzzing_eq_seq (env : FuzzEnv) (cfg : FuzzConfig) (text : String)
    (hth : cfg.threads = 1) (hmark : cfg.replacementMarker.isSome = true)
    (hne : parseWordlist text ≠ []) :
    startFuzzing env cfg text =
      some { results := (runSeqAux env cfg (parseWordlist text) 0 initSeqState).results,
             progressCount :=
               (runSeqAux env cfg (parseWordlist text) 0 initSeqState).progressCount,
             isRunning := false,
             dispatched :=
               (runSeqAux env cfg (parseWordlist text) 0 initSeqState).dispatched,
             displayTrace :=
               (runSeqAux env cfg (parseWordlist text) 0 initSeqState).displayTrace } := by
  obtain ⟨marker, hm⟩ := Option.isSome_iff_exists.mp hmark
  have hlen : ¬ (parseWordlist text).length = 0 := by
    simpa [List.length_eq_zero] using hne
  unfold startFuzzing
  simp [hlen, hm, hth, initSeqState]

theorem seqRows_map_requestNum (env : FuzzEnv) (cfg : FuzzConfig) (ws : List String)
    (m : Nat)
    (h : ∀ j, j < m → (stepR env cfg (j + 1) (ws.getD j "")).isOk = true) :
    (seqRows env cfg ws m).map (fun r => r.requestNum) = List.range' 1 m := by
  unfold seqRows
  rw [List.map_map, List.range'_eq_map_range]
  apply List.map_congr_left
  intro j hj
  have hj2 : j < m := List.mem_range.mp hj
  have hr := (okRow_fields (h j hj2)).1
  simp only [Function.comp_apply, hr]
  omega

theorem length_filter_range_succ_eq_one {L i : Nat} (h1 : 1 ≤ i) (h2 : i ≤ L) :
    ((List.range L).filter (fun j => j + 1 = i)).length = 1 := by
  induction L with
  | zero => omega
  | succ L ih =>
    rw [List.range_succ, List.filter_append, List.length_append]
    by_cases hL : i ≤ L
    · have hne : ¬ (L + 1 = i) := by omega
      have h0 : (([L] : List Nat).filter (fun j => j + 1 = i)).length = 0 := by
        simp [List.filter_cons, hne]
      rw [ih hL, h0]
    · have hgt : L + 1 = i := by omega
      have h0 : ((List.range L).filter (fun j => j + 1 = i)).length = 0 := by
        rw [List.length_eq_zero, List.filter_eq_nil_iff]
        intro j hj
        have := List.mem_range.mp hj
        simp only [decide_eq_true_eq]
        omega
      have hone : (([L] : List Nat).filter (fun j => j + 1 = i)).length = 1 := by
        simp [List.filter_cons, hgt]
      rw [h0, hone]

theorem seqRows_filter_requestNum (env : FuzzEnv) (cfg : FuzzConfig)
    (ws : List String) (L i : Nat)
    (hok : ∀ j, j < L → (stepR env cfg (j + 1) (ws.getD j "")).isOk = true)
    (h1 : 1 ≤ i) (h2 : i ≤ L) :
    ((seqRows env cfg ws L).filter (fun r => r.requestNum = i)).length = 1 := by
  unfold seqRows
  rw [List.filter_map, List.length_map]
  have hcongr : ((List.range L).filter
        ((fun r => decide (FuzzResult.requestNum r = i)) ∘
          (fun j => okRow env cfg (j + 1) (ws.getD j ""))))
      = (List.range L).filter (fun j => j + 1 = i) := by
    apply List.filter_congr
    intro j hj
    have hj2 : j < L := List.mem_range.mp hj
    have hr := (okRow_fields (hok j hj2)).1
    simp only [List.getD_eq_getElem?_getD] at hr
    simp [Function.comp, hr]
  rw [hcongr]
  exact length_filter_range_succ_eq_one h1 h2

theorem seqRows_getD (env : FuzzEnv) (cfg : FuzzConfig) (ws : List String)
    (L i : Nat) (h1 : 1 ≤ i) (h2 : i ≤ L) :
    (seqRows env cfg ws L).getD (i - 1) default
      = okRow env cfg i (ws.getD (i - 1) "") := by
  unfold seqRows
  rw [List.getD_eq_getElem?_getD, List.getElem?_map,
    List.getElem?_range (show i - 1 < L by omega)]
  simp only [Option.map_some', Option.getD_some]
  congr 1
  omega

/-- C4: on an individual fuzz request in the sequential loop, a non-abort
error is recorded as exactly one result row with the synthesized status
`Error: <message>` and the loop continues through the whole wordlist, while
an `AbortError` records no row, leaves the previously recorded rows
unchanged, terminates the loop, and the running flag ends false (Idle). -/
theorem c4_error_vs_abort (envE envA : FuzzEnv) (cfg : FuzzConfig) (text : String)
    (i : Nat) (name msgE msgA : String) (v vA : Json)
    (hth : cfg.threads = 1)
    (hmark : cfg.replacementMarker.isSome = true)
    (hne : parseWordlist text ≠ [])
    (hi1 : 1 ≤ i) (hi2 : i ≤ (parseWordlist text).length) :
    ((∀ k, envE.aborted k = false) →
     (∀ n w, (stepR envE cfg n w).isOk = true) →
     cfg.useProxy = false →
     envE.parse (variablesOrDefault cfg.variablesText) = .ok v →
     envE.dnetF i ((parseWordlist text).getD (i - 1) "") = .throws name msgE →
     name ≠ "AbortError" → msgE ≠ "" →
     ∃ fr, startFuzzing envE cfg text = some fr ∧
       fr.results.length = (parseWordlist text).length ∧
       fr.results.map (fun r => r.requestNum)
         = List.range' 1 (parseWordlist text).length ∧
       fr.results.getD (i - 1) default
         = errorRow i msgE (envE.times i) ((parseWordlist text).getD (i - 1) "") ∧
       (fr.results.getD (i - 1) default).statusCode = "Error: " ++ msgE ∧
       (fr.results.filter (fun r => r.requestNum = i)).length = 1 ∧
       fr.isRunning = false) ∧
    ((∀ k, envA.aborted k = false) →
     (∀ n w, n ≠ i → (stepR envA cfg n w).isOk = true) →
     cfg.useProxy = false →
     envA.parse (variablesOrDefault cfg.variablesText) = .ok vA →
     envA.dnetF i ((parseWordlist text).getD (i - 1) "") = .throws "AbortError" msgA →
     ∃ fr, startFuzzing envA cfg text = some fr ∧
       fr.results = seqRows envA cfg (parseWordlist text) (i - 1) ∧
       fr.results.length = i - 1 ∧
       fr.results.map (fun r => r.requestNum) = List.range' 1 (i - 1) ∧
       fr.progressCount = i - 1 ∧
       fr.dispatched.length = i ∧
       fr.isRunning = false) := by
  constructor
  · intro hab hok hu hp hd hname hmsg
    have hok2 : ∀ j, j < (parseWordlist text).length →
        (stepR envE cfg (0 + j + 1) ((parseWordlist text).getD j "")).isOk = true :=
      fun j _ => hok _ _
    obtain ⟨h1, h2, h3⟩ :=
      runSeqAux_all_ok envE cfg hab (parseWordlist text) 0 initSeqState hok2
    have hrows : (List.range (parseWordlist text).length).map
        (fun j => okRow envE cfg (0 + j + 1) ((parseWordlist text).getD j ""))
        = seqRows envE cfg (parseWordlist text) (parseWordlist text).length := by
      unfold seqRows
      apply List.map_congr_left
      intro j _
      have h0 : 0 + j + 1 = j + 1 := by omega
      rw [h0]
    rw [hrows] at h1
    have hgetd := seqRows_getD envE cfg (parseWordlist text)
      (parseWordlist text).length i hi1 hi2
    have herr2 : okRow envE cfg i ((parseWordlist text).getD (i - 1) "") =
        errorRow i msgE (envE.times i) ((parseWordlist text).getD (i - 1) "") := by
      unfold okRow
      rw [stepR_direct_error hu hp hd hname]
    refine ⟨_, startFuzzing_eq_seq envE cfg text hth hmark hne, ?_, ?_, ?_, ?_, ?_, rfl⟩
    · rw [h1]
      simp [initSeqState, seqRows]
    · rw [h1]
      have hinit : initSeqState.results = [] := rfl
      rw [hinit, List.nil_append]
      exact seqRows_map_requestNum envE cfg (parseWordlist text) _
        (fun j _ => hok _ _)
    · rw [h1]
      have hinit : initSeqState.results = [] := rfl
      rw [hinit, List.nil_append, hgetd, herr2]
    · rw [h1]
      have hinit : initSeqState.results = [] := rfl
      rw [hinit, List.nil_append, hgetd, herr2]
      simp [errorRow, hmsg]
    · rw [h1]
      have hinit : initSeqState.results = [] := rfl
      rw [hinit, List.nil_append]
      exact seqRows_filter_requestNum envE cfg (parseWordlist text) _ i
        (fun j _ => hok _ _) hi1 hi2
  · intro hab hok hu hp hd
    have habort : stepR envA cfg (0 + (i - 1) + 1)
        ((parseWordlist text).getD (i - 1) "") = .abortThrown msgA := by
      have harith : 0 + (i - 1) + 1 = i := by omega
      rw [harith]
      exact stepR_direct_abort hu hp hd
    have hok2 : ∀ j, j < i - 1 →
        (stepR envA cfg (0 + j + 1) ((parseWordlist text).getD j "")).isOk = true :=
      fun j hj => hok _ _ (by omega)
    obtain ⟨h1, h2, h3⟩ := runSeqAux_abort envA cfg hab (i - 1) (parseWordlist text)
      0 initSeqState msgA hok2 (by omega) habort
    have hrows : (List.range (i - 1)).map
        (fun j => okRow envA cfg (0 + j + 1) ((parseWordlist text).getD j ""))
        = seqRows envA cfg (parseWordlist text) (i - 1) := by
      unfold seqRows
      apply List.map_congr_left
      intro j _
      have h0 : 0 + j + 1 = j + 1 := by omega
      rw [h0]
    rw [hrows] at h1
    refine ⟨_, startFuzzing_eq_seq envA cfg text hth hmark hne, ?_, ?_, ?_, ?_, ?_, rfl⟩
    · rw [h1]
      have hinit : initSeqState.results = [] := rfl
      rw [hinit, List.nil_append]
    · rw [h1]
      simp [initSeqState, seqRows]
    · rw [h1]
      have hinit : initSeqState.results = [] := rfl
      rw [hinit, List.nil_append]
      exact seqRows_map_requestNum envA cfg (parseWordlist text) _
        (fun j hj => hok _ _ (by omega))
    · rw [h2]
      simp [initSeqState]
    · rw [h3]
      simp [initSeqState]
      omega

/-- A successful direct-mode reply is recorded with the numeric status as a
string (lines 192–207). -/
theorem stepR_direct_reply {env : FuzzEnv} {cfg : FuzzConfig} {n : Nat} {w : String}
    {status : Nat} {body : String} {headers : HeaderMap} {v : Json}
    (hu : cfg.useProxy = false)
    (hp : env.parse (variablesOrDefault cfg.variablesText) = .ok v)
    (hd : env.dnetF n w = .reply status body headers) :
    stepR env cfg n w = .ok
      { requestNum := n, statusCode := toString status,
        contentLength := toString body.length, timeMs := env.times n,
        requestBody := env.stringify (builtQuery cfg w) v, responseBody := body,
        responseHeaders := headers, wordlistItem := w } := by
  unfold stepR sendSingleRequest
  rw [hp]
  simp [hu, hd]

/-- Sequential direct-mode fixture configuration. -/
def fixCfgSeq : FuzzConfig :=
  { url := "http://target/graphql", headersRaw := "", query := "\x7b users \x7d",
    variablesText := "", useProxy := false, proxyUrl := "",
    replacementMarker := some fixMarker, threads := 1, delayMs := 0 }

/-- Direct-mode environment whose request 2 throws a non-abort error. -/
def fixEnvErrAt2 : FuzzEnv :=
  { parse := fixParse, stringify := fixStringify,
    pnetF := fun _ _ => .reply {},
    dnetF := fun n _ =>
      if n = 2 then .throws "TypeError" "Failed to fetch" else .reply 200 "ok" [],
    times := fun _ => 0, aborted := fun _ => false }

/-- Direct-mode environment whose request 2 throws an `AbortError`. -/
def fixEnvAbortAt2 : FuzzEnv :=
  { fixEnvErrAt2 with
    dnetF := fun n _ =>
      if n = 2 then .throws "AbortError" "aborted" else .reply 200 "ok" [] }

/-- Witness for C4 at a concrete three-word run with the failure on
request 2. -/
theorem c4_error_vs_abort_witness :
    (∃ fr, startFuzzing fixEnvErrAt2 fixCfgSeq "a\nb\nc" = some fr ∧
       fr.results.length = (parseWordlist "a\nb\nc").length ∧
       fr.results.map (fun r => r.requestNum)
         = List.range' 1 (parseWordlist "a\nb\nc").length ∧
       fr.results.getD 1 default
         = errorRow 2 "Failed to fetch" (fixEnvErrAt2.times 2)
             ((parseWordlist "a\nb\nc").getD 1 "") ∧
       (fr.results.getD 1 default).statusCode = "Error: " ++ "Failed to fetch" ∧
       (fr.results.filter (fun r => r.requestNum = 2)).length = 1 ∧
       fr.isRunning = false) ∧
    (∃ fr, startFuzzing fixEnvAbortAt2 fixCfgSeq "a\nb\nc" = some fr ∧
       fr.results = seqRows fixEnvAbortAt2 fixCfgSeq (parseWordlist "a\nb\nc") 1 ∧
       fr.results.length = 1 ∧
       fr.results.map (fun r => r.requestNum) = List.range' 1 1 ∧
       fr.progressCount = 1 ∧
       fr.dispatched.length = 2 ∧
       fr.isRunning = false) := by
  have h := c4_error_vs_abort fixEnvErrAt2 fixEnvAbortAt2 fixCfgSeq "a\nb\nc" 2
    "TypeError" "Failed to fetch" "aborted" (Json.obj []) (Json.obj [])
    rfl rfl (by decide) (by decide) (by decide)
  have hokE : ∀ n w, (stepR fixEnvErrAt2 fixCfgSeq n w).isOk = true := by
    intro n w
    by_cases hn : n = 2
    · subst hn
      rw [stepR_direct_error (v := Json.obj []) rfl rfl rfl (by decide)]
      rfl
    · rw [stepR_direct_reply (v := Json.obj []) rfl rfl
        (show fixEnvErrAt2.dnetF n w = .reply 200 "ok" [] by
          simp [fixEnvErrAt2, hn])]
      rfl
  have hokA : ∀ n w, n ≠ 2 → (stepR fixEnvAbortAt2 fixCfgSeq n w).isOk = true := by
    intro n w hn
    rw [stepR_direct_reply (v := Json.obj []) rfl rfl
      (show fixEnvAbortAt2.dnetF n w = .reply 200 "ok" [] by
        simp [fixEnvAbortAt2, fixEnvErrAt2, hn])]
    rfl
  exact ⟨h.1 (fun _ => rfl) hokE rfl rfl rfl (by decide) (by decide),
    h.2 (fun _ => rfl) hokA rfl rfl rfl⟩

/-! ## Concurrent loop lemmas -/

/-- The result map after the first `m` requests completed: request numbers
`1..m` bound to their rows. -/
def rowMap (env : FuzzEnv) (cfg : FuzzConfig) (full : List String) (m : Nat) :
    List (Nat × FuzzResult) :=
  (List.range m).map (fun j => (j + 1, okRow env cfg (j + 1) (full.getD j "")))

theorem filterMap_eq_map_of_some {α β : Type} {l : List α} {f : α → Option β}
    {g : α → β} (h : ∀ x ∈ l, f x = some (g x)) : l.filterMap f = l.map g := by
  induction l with
  | nil => rfl
  | cons x xs ih =>
    rw [List.filterMap_cons, h x (by simp), List.map_cons,
      ih (fun y hy => h y (List.mem_cons_of_mem _ hy))]

theorem objGet_append {κ ν : Type} [DecidableEq κ] (l1 l2 : List (κ × ν)) (k : κ) :
    objGet (l1 ++ l2) k =
      match objGet l1 k with
      | some v => some v
      | none => objGet l2 k := by
  induction l1 with
  | nil => simp [objGet]
  | cons p ps ih =>
    by_cases hp : p.1 = k <;> simp [objGet, hp, ih]

theorem objGet_rowMap (env : FuzzEnv) (cfg : FuzzConfig) (full : List String) :
    ∀ (m n : Nat),
      objGet (rowMap env cfg full m) n =
        if 1 ≤ n ∧ n ≤ m then some (okRow env cfg n (full.getD (n - 1) "")) else none := by
  intro m
  induction m with
  | zero =>
    intro n
    rw [if_neg (by omega)]
    rfl
  | succ m ih =>
    intro n
    have hsplit : rowMap env cfg full (m + 1)
        = rowMap env cfg full m ++ [(m + 1, okRow env cfg (m + 1) (full.getD m ""))] := by
      unfold rowMap
      rw [List.range_succ, List.map_append, List.map_cons, List.map_nil]
    rw [hsplit, objGet_append, ih n]
    by_cases h1 : 1 ≤ n ∧ n ≤ m
    · rw [if_pos h1, if_pos (by omega)]
    · rw [if_neg h1]
      by_cases h2 : n = m + 1
      · rw [if_pos (by omega)]
        subst h2
        simp [objGet]
      · rw [if_neg (by omega)]
        have hne : (m + 1 : Nat) ≠ n := by omega
        simp [objGet, hne]

theorem ordered_rowMap (env : FuzzEnv) (cfg : FuzzConfig) (full : List String)
    (pc : Nat) :
    (List.range pc).filterMap (fun j => objGet (rowMap env cfg full pc) (j + 1))
      = seqRows env cfg full pc := by
  unfold seqRows
  apply filterMap_eq_map_of_some
  intro j hj
  have hj2 : j < pc := List.mem_range.mp hj
  rw [objGet_rowMap env cfg full pc (j + 1), if_pos (by omega)]
  simp

theorem batchOutcomes_map_fst (env : FuzzEnv) (cfg : FuzzConfig) :
    ∀ (batch : List String) (n0 : Nat),
      (batchOutcomes env cfg n0 batch).map Prod.fst
        = (List.range batch.length).map (fun j => (n0 + j, batch.getD j "")) := by
  intro batch
  induction batch with
  | nil => intro n0; rfl
  | cons w bs ih =>
    intro n0
    rw [batchOutcomes, List.map_cons, ih (n0 + 1)]
    simp only [List.length_cons, List.range_succ_eq_map, List.map_cons,
      List.map_map, List.getD_cons_zero, Nat.add_zero]
    congr 1
    apply List.map_congr_left
    intro j _
    have h : n0 + (j + 1) = n0 + 1 + j := by omega
    simp [Function.comp, h]

theorem fold_batch_ok (env : FuzzEnv) (cfg : FuzzConfig)
    (hok : ∀ n w, (stepR env cfg n w).isOk = true) :
    ∀ (batch : List String) (n0 : Nat) (m : List (Nat × FuzzResult)) (pc : Nat),
      (batchOutcomes env cfg n0 batch).foldl
        (fun (acc : List (Nat × FuzzResult) × Nat) o =>
          match o.2 with
          | .ok r => (objSet acc.1 r.requestNum r, acc.2 + 1)
          | .abortThrown _ => acc) (m, pc)
      = (applyEntries m ((List.range batch.length).map
            (fun j => (n0 + j, okRow env cfg (n0 + j) (batch.getD j "")))),
         pc + batch.length) := by
  intro batch
  induction batch with
  | nil => intro n0 m pc; simp [batchOutcomes, applyEntries]
  | cons w bs ih =>
    intro n0 m pc
    rw [batchOutcomes, List.foldl_cons]
    have hstep : stepR env cfg n0 w = .ok (okRow env cfg n0 w) :=
      stepR_eq_ok_okRow (hok n0 w)
    have hnum : (okRow env cfg n0 w).requestNum = n0 := (okRow_fields (hok n0 w)).1
    simp only [hstep, hnum]
    rw [ih (n0 + 1) (objSet m n0 (okRow env cfg n0 w)) (pc + 1)]
    have hentries : applyEntries (objSet m n0 (okRow env cfg n0 w))
          ((List.range bs.length).map
            (fun j => (n0 + 1 + j, okRow env cfg (n0 + 1 + j) (bs.getD j ""))))
        = applyEntries m ((List.range (w :: bs).length).map
            (fun j => (n0 + j, okRow env cfg (n0 + j) ((w :: bs).getD j "")))) := by
      have hcons : (List.range (w :: bs).length).map
            (fun j => (n0 + j, okRow env cfg (n0 + j) ((w :: bs).getD j "")))
          = (n0, okRow env cfg n0 w) ::
            (List.range bs.length).map
              (fun j => (n0 + 1 + j, okRow env cfg (n0 + 1 + j) (bs.getD j ""))) := by
        simp only [List.length_cons, List.range_succ_eq_map, List.map_cons,
          List.map_map, List.getD_cons_zero, Nat.add_zero]
        congr 1
        apply List.map_congr_left
        intro j _
        have h : n0 + (j + 1) = n0 + 1 + j := by omega
        simp [Function.comp, h]
      rw [hcons]
      rfl
    rw [hentries]
    have hlen : pc + 1 + bs.length = pc + (w :: bs).length := by
      simp only [List.length_cons]
      omega
    rw [hlen]

/-- Keys in `rowMap m` are at most `m`. -/
theorem rowMap_keys_le (env : FuzzEnv) (cfg : FuzzConfig) (full : List String)
    (m : Nat) : ∀ p ∈ rowMap env cfg full m, p.1 ≤ m := by
  intro p hp
  unfold rowMap at hp
  rcases List.mem_map.mp hp with ⟨j, hj, hpe⟩
  have := List.mem_range.mp hj
  subst hpe
  omega

/-- The concurrent loop with no cancellation and no aborts: the result map
ends with every request bound, the processed count reaches the wordlist
length, the dispatch log covers the remaining words in order, and after each
batch the displayed list is the ascending prefix of completed rows. -/
theorem runConcAux_ok (env : FuzzEnv) (cfg : FuzzConfig)
    (hab : ∀ k, env.aborted k = false)
    (hok : ∀ n w, (stepR env cfg n w).isOk = true)
    (hN : 1 ≤ cfg.threads) (full : List String) :
    ∀ (len : Nat) (rest : List String) (k : Nat) (st : ConcState),
      rest.length = len →
      rest = full.drop (k * cfg.threads) →
      st.resultMap = rowMap env cfg full (min (k * cfg.threads) full.length) →
      st.processedCount = min (k * cfg.threads) full.length →
      runConcAux env cfg (chunksOf cfg.threads rest) k st =
        { resultMap := rowMap env cfg full full.length,
          processedCount := full.length,
          dispatched := st.dispatched ++
            (List.range (full.length - k * cfg.threads)).map
              (fun j => (k * cfg.threads + j + 1,
                full.getD (k * cfg.threads + j) "")),
          displayTrace := st.displayTrace ++
            (List.range (chunksOf cfg.threads rest).length).map
              (fun t => seqRows env cfg full
                (min ((k + t + 1) * cfg.threads) full.length)) } := by
  intro len
  induction len using Nat.strong_induction_on with
  | _ len ih =>
    intro rest k st hlen hrest hmap hpc
    cases rest with
    | nil =>
      have hge : full.length ≤ k * cfg.threads := List.drop_eq_nil_iff.mp hrest.symm
      have hmin : min (k * cfg.threads) full.length = full.length := by omega
      rw [show chunksOf cfg.threads ([] : List String) = [] from by rw [chunksOf]]
      rw [runConcAux]
      obtain ⟨rm, pc, disp, trace⟩ := st
      simp only at hmap hpc
      rw [hmap, hpc, hmin]
      have h0 : full.length - k * cfg.threads = 0 := by omega
      simp [h0]
    | cons w ws2 =>
      have hklt : k * cfg.threads < full.length := by
        by_contra hge
        push_neg at hge
        have hnil : full.drop (k * cfg.threads) = [] := List.drop_eq_nil_of_le hge
        rw [hnil] at hrest
        exact absurd hrest (by simp)
      have hminK : min (k * cfg.threads) full.length = k * cfg.threads := by omega
      have hN1 : cfg.threads = (cfg.threads - 1) + 1 := by omega
      have htake : w :: ws2.take (cfg.threads - 1) = (w :: ws2).take cfg.threads := by
        conv_rhs => rw [hN1]
        rw [List.take_succ_cons]
      have hdropN : ws2.drop (cfg.threads - 1) = (w :: ws2).drop cfg.threads := by
        conv_rhs => rw [hN1]
        rw [List.drop_succ_cons]
      have hchunk : chunksOf cfg.threads (w :: ws2)
          = (w :: ws2).take cfg.threads ::
            chunksOf cfg.threads ((w :: ws2).drop cfg.threads) := by
        rw [chunksOf, htake, hdropN]
      have hrest2 : (w :: ws2).drop cfg.threads
          = full.drop ((k + 1) * cfg.threads) := by
        rw [hrest, List.drop_drop]
        congr 1
        ring
      have hblen : ((w :: ws2).take cfg.threads).length
          = min cfg.threads (full.length - k * cfg.threads) := by
        rw [List.length_take]
        congr 1
        rw [hrest, List.length_drop]
      have hbget : ∀ j, j < ((w :: ws2).take cfg.threads).length →
          ((w :: ws2).take cfg.threads).getD j ""
            = full.getD (k * cfg.threads + j) "" := by
        intro j hj
        have hjN : j < cfg.threads := by
          rw [hblen] at hj
          omega
        rw [List.getD_eq_getElem?_getD, List.getD_eq_getElem?_getD,
          List.getElem?_take_of_lt hjN, hrest, List.getElem?_drop]
      have hpc2 : k * cfg.threads + ((w :: ws2).take cfg.threads).length
          = min ((k + 1) * cfg.threads) full.length := by
        have hmul : (k + 1) * cfg.threads = k * cfg.threads + cfg.threads := by ring
        rw [hblen, hmul]
        omega
      -- extend the row map over the batch
      have hpairs : (List.range ((w :: ws2).take cfg.threads).length).map
            (fun j => (k * cfg.threads + 1 + j,
              okRow env cfg (k * cfg.threads + 1 + j)
                (((w :: ws2).take cfg.threads).getD j "")))
          = (List.range ((w :: ws2).take cfg.threads).length).map
            (fun j => (k * cfg.threads + j + 1,
              okRow env cfg (k * cfg.threads + j + 1)
                (full.getD (k * cfg.threads + j) ""))) := by
        apply List.map_congr_left
        intro j hj
        have hj2 : j < ((w :: ws2).take cfg.threads).length := List.mem_range.mp hj
        have harith : k * cfg.threads + 1 + j = k * cfg.threads + j + 1 := by omega
        rw [harith, hbget j hj2]
      have hrowext : applyEntries (rowMap env cfg full (k * cfg.threads))
            ((List.range ((w :: ws2).take cfg.threads).length).map
              (fun j => (k * cfg.threads + 1 + j,
                okRow env cfg (k * cfg.threads + 1 + j)
                  (((w :: ws2).take cfg.threads).getD j ""))))
          = rowMap env cfg full
              (k * cfg.threads + ((w :: ws2).take cfg.threads).length) := by
        rw [hpairs]
        rw [applyEntries_fresh ?_ ?_]
        · unfold rowMap
          rw [List.range_add, List.map_append, List.map_map]
          congr 1
        · intro e he p hp
          rcases List.mem_map.mp he with ⟨j, _, hje⟩
          have hple := rowMap_keys_le env cfg full (k * cfg.threads) p hp
          subst hje
          show p.1 ≠ k * cfg.threads + j + 1
          omega
        · rw [List.map_map]
          have hfst : (Prod.fst ∘ fun j => (k * cfg.threads + j + 1,
              okRow env cfg (k * cfg.threads + j + 1)
                (full.getD (k * cfg.threads + j) "")))
              = fun j => k * cfg.threads + j + 1 := rfl
          rw [hfst]
          apply List.Nodup.map
          · intro a b hab2
            have h2 : k * cfg.threads + a + 1 = k * cfg.threads + b + 1 := hab2
            omega
          · exact List.nodup_range _
      rw [hchunk, runConcAux]
      simp only [hab k, Bool.false_eq_true, if_false]
      rw [hmap, hpc, hminK]
      simp only [fold_batch_ok env cfg hok]
      rw [hrowext]
      rw [ordered_rowMap env cfg full
        (k * cfg.threads + ((w :: ws2).take cfg.threads).length)]
      have hlen2 : ((w :: ws2).drop cfg.threads).length < len := by
        rw [List.length_drop]
        have : (w :: ws2).length = len := hlen
        simp only [List.length_cons] at this
        omega
      have hmap2 : rowMap env cfg full
            (k * cfg.threads + ((w :: ws2).take cfg.threads).length)
          = rowMap env cfg full
              (min ((k + 1) * cfg.threads) full.length) := by
        rw [hpc2]
      have hih := ih ((w :: ws2).drop cfg.threads).length hlen2
        ((w :: ws2).drop cfg.threads) (k + 1)
        { resultMap := rowMap env cfg full
            (k * cfg.threads + ((w :: ws2).take cfg.threads).length),
          processedCount :=
            k * cfg.threads + ((w :: ws2).take cfg.threads).length,
          dispatched := st.dispatched ++
            (batchOutcomes env cfg (k * cfg.threads + 1)
              ((w :: ws2).take cfg.threads)).map (fun o => o.1),
          displayTrace := st.displayTrace ++
            [seqRows env cfg full
              (k * cfg.threads + ((w :: ws2).take cfg.threads).length)] }
        rfl hrest2 (by simp only; rw [hpc2]) (by simp only; rw [hpc2])
      rw [hih]
      clear hih
      congr 1
      · -- dispatched
        simp only [List.append_assoc]
        congr 1
        rw [batchOutcomes_map_fst]
        have hsplitN : full.length - k * cfg.threads
            = ((w :: ws2).take cfg.threads).length
              + (full.length - (k + 1) * cfg.threads) := by
          have hmul : (k + 1) * cfg.threads = k * cfg.threads + cfg.threads := by ring
          rw [hblen, hmul]
          omega
        rw [hsplitN, List.range_add, List.map_append]
        congr 1
        · apply List.map_congr_left
          intro j hj
          have hj2 : j < ((w :: ws2).take cfg.threads).length := List.mem_range.mp hj
          have harith : k * cfg.threads + j + 1 = k * cfg.threads + 1 + j := by omega
          rw [hbget j hj2, harith]
        · rw [List.map_map]
          apply List.map_congr_left
          intro j hj
          have hj2 : j < full.length - (k + 1) * cfg.threads := List.mem_range.mp hj
          have hfullBatch : ((w :: ws2).take cfg.threads).length = cfg.threads := by
            have hmul : (k + 1) * cfg.threads = k * cfg.threads + cfg.threads := by ring
            rw [hblen]
            rw [hmul] at hj2
            omega
          have harith : k * cfg.threads + (((w :: ws2).take cfg.threads).length + j)
              = (k + 1) * cfg.threads + j := by
            rw [hfullBatch]
            ring
          simp only [Function.comp_apply]
          rw [show k * cfg.threads + (((w :: ws2).take cfg.threads).length + j) + 1
              = (k + 1) * cfg.threads + j + 1 from by rw [harith]]
          rw [harith]
      · -- display trace
        simp only [List.append_assoc]
        congr 1
        have htail : (List.range
              (chunksOf cfg.threads ((w :: ws2).drop cfg.threads)).length).map
              ((fun t => seqRows env cfg full
                (min ((k + t + 1) * cfg.threads) full.length)) ∘ Nat.succ)
            = (List.range
              (chunksOf cfg.threads ((w :: ws2).drop cfg.threads)).length).map
              (fun t => seqRows env cfg full
                (min ((k + 1 + t + 1) * cfg.threads) full.length)) := by
          apply List.map_congr_left
          intro t _
          simp only [Function.comp_apply]
          have h : k + Nat.succ t + 1 = k + 1 + t + 1 := by omega
          rw [h]
        conv_rhs => rw [List.length_cons, List.range_succ_eq_map]
        rw [List.map_cons, List.map_map, List.singleton_append]
        congr 1
        · have h0 : k + 0 + 1 = k + 1 := by omega
          rw [h0, hpc2]
        · exact htail.symm

/-- The initial concurrent loop state set up by `startFuzzing`. -/
def initConcState : ConcState :=
  { resultMap := [], processedCount := 0, dispatched := [], displayTrace := [] }

/-- `startFuzzing` in concurrent mode reduces to the batched loop. -/
theorem startFuzzing_eq_conc (env : FuzzEnv) (cfg : FuzzConfig) (text : String)
    (hth : cfg.threads ≠ 1) (hmark : cfg.replacementMarker.isSome = true)
    (hne : parseWordlist text ≠ []) :
    startFuzzing env cfg text =
      some { results := (((runConcAux env cfg
               (chunksOf cfg.threads (parseWordlist text)) 0
               initConcState).displayTrace).getLast?).getD [],
             progressCount := (runConcAux env cfg
               (chunksOf cfg.threads (parseWordlist text)) 0
               initConcState).processedCount,
             isRunning := false,
             dispatched := (runConcAux env cfg
               (chunksOf cfg.threads (parseWordlist text)) 0
               initConcState).dispatched,
             displayTrace := (runConcAux env cfg
               (chunksOf cfg.threads (parseWordlist text)) 0
               initConcState).displayTrace } := by
  obtain ⟨marker, hm⟩ := Option.isSome_iff_exists.mp hmark
  have hlen : ¬ (parseWordlist text).length = 0 := by
    simpa [List.length_eq_zero] using hne
  unfold startFuzzing
  simp [hlen, hm, hth, initConcState]

/-- A wordlist of length `L` cut into batches of width `n` needs at least
`L / n` batches: `L ≤ (number of batches) * n`. -/
theorem length_le_chunks_mul {α : Type} {n : Nat} (hn : 1 ≤ n) :
    ∀ (l : List α), l.length ≤ (chunksOf n l).length * n := by
  intro l
  generalize hlen : l.length = len
  induction len using Nat.strong_induction_on generalizing l with
  | _ len ih =>
    cases l with
    | nil => simp [chunksOf] at hlen ⊢; omega
    | cons w ws =>
      have hstep : chunksOf n (w :: ws) =
          (w :: ws.take (n - 1)) :: chunksOf n (ws.drop (n - 1)) := by
        rw [chunksOf]
      have hlt : (ws.drop (n - 1)).length < len := by
        subst hlen
        simp only [List.length_drop, List.length_cons]
        omega
      have hrec := ih _ hlt (ws.drop (n - 1)) rfl
      rw [hstep]
      simp only [List.length_cons, List.length_drop] at hrec ⊢
      subst hlen
      simp only [List.length_cons]
      have : (chunksOf n (ws.drop (n - 1))).length * n + n
          = ((chunksOf n (ws.drop (n - 1))).length + 1) * n := by ring
      omega

/-- C1: with thread count N > 1 and no cancellation, exactly L requests are
dispatched (numbered 1..L in wordlist order), partitioned into consecutive
batches of size at most N; after every batch the displayed list is exactly
the ascending-request-number arrangement of all rows completed so far, and
the final display holds all L rows in ascending order. -/
theorem c1_bounded_concurrency (env : FuzzEnv) (cfg : FuzzConfig) (text : String)
    (hmark : cfg.replacementMarker.isSome = true)
    (hne : parseWordlist text ≠ [])
    (hN : 2 ≤ cfg.threads)
    (hab : ∀ k, env.aborted k = false)
    (hok : ∀ n w, (stepR env cfg n w).isOk = true) :
    ∃ fr, startFuzzing env cfg text = some fr ∧
      fr.dispatched = (List.range (parseWordlist text).length).map
        (fun j => (j + 1, (parseWordlist text).getD j "")) ∧
      fr.dispatched.length = (parseWordlist text).length ∧
      (chunksOf cfg.threads (parseWordlist text)).flatten = parseWordlist text ∧
      (∀ b ∈ chunksOf cfg.threads (parseWordlist text),
        0 < b.length ∧ b.length ≤ cfg.threads) ∧
      fr.displayTrace.length = (chunksOf cfg.threads (parseWordlist text)).length ∧
      (∀ t, t < fr.displayTrace.length →
        fr.displayTrace.getD t [] = seqRows env cfg (parseWordlist text)
          (min ((t + 1) * cfg.threads) (parseWordlist text).length)) ∧
      (∀ tr ∈ fr.displayTrace,
        tr.map (fun r => r.requestNum) = List.range' 1 tr.length) ∧
      fr.results = seqRows env cfg (parseWordlist text) (parseWordlist text).length ∧
      fr.progressCount = (parseWordlist text).length ∧
      fr.isRunning = false := by
  have hN1 : 1 ≤ cfg.threads := by omega
  have hth : cfg.threads ≠ 1 := by omega
  have hrun := runConcAux_ok env cfg hab hok hN1 (parseWordlist text)
    (parseWordlist text).length (parseWordlist text) 0 initConcState rfl
    (by rw [Nat.zero_mul, List.drop_zero])
    (by rw [Nat.zero_mul, Nat.zero_min]; rfl)
    (by rw [Nat.zero_mul, Nat.zero_min]; rfl)
  refine ⟨_, startFuzzing_eq_conc env cfg text hth hmark hne, ?_, ?_, ?_, ?_, ?_, ?_,
    ?_, ?_, ?_, rfl⟩
  · rw [hrun]
    show ([] : List (Nat × String)) ++ _ = _
    rw [List.nil_append]
    rw [show (parseWordlist text).length - 0 * cfg.threads
      = (parseWordlist text).length from by omega]
    apply List.map_congr_left
    intro j _
    have h1 : 0 * cfg.threads + j + 1 = j + 1 := by omega
    have h2 : 0 * cfg.threads + j = j := by omega
    rw [h1, h2]
  · rw [hrun]
    show (([] : List (Nat × String)) ++ _).length = _
    simp
  · exact (chunksOf_spec hN1 (parseWordlist text)).2
  · exact (chunksOf_spec hN1 (parseWordlist text)).1
  · rw [hrun]
    show (([] : List (List FuzzResult)) ++ _).length = _
    simp
  · intro t ht
    rw [hrun] at ht ⊢
    have ht2 : t < (chunksOf cfg.threads (parseWordlist text)).length := by
      revert ht
      show t < (([] : List (List FuzzResult)) ++ _).length → _
      simp
    show (([] : List (List FuzzResult)) ++ _).getD t [] = _
    rw [List.nil_append, List.getD_eq_getElem?_getD, List.getElem?_map,
      List.getElem?_range ht2]
    simp only [Option.map_some', Option.getD_some]
    have h0 : 0 + t + 1 = t + 1 := by omega
    rw [h0]
  · intro tr htr
    rw [hrun] at htr
    revert htr
    show tr ∈ ([] : List (List FuzzResult)) ++ _ → _
    rw [List.nil_append]
    intro htr
    rcases List.mem_map.mp htr with ⟨t, _, hte⟩
    subst hte
    have hlen : (seqRows env cfg (parseWordlist text)
        (min ((0 + t + 1) * cfg.threads) (parseWordlist text).length)).length
        = min ((0 + t + 1) * cfg.threads) (parseWordlist text).length := by
      simp [seqRows]
    rw [hlen]
    exact seqRows_map_requestNum env cfg (parseWordlist text) _ (fun j _ => hok _ _)
  · rw [hrun]
    show ((([] : List (List FuzzResult)) ++ _).getLast?).getD [] = _
    rw [List.nil_append]
    have hone : chunksOf cfg.threads (parseWordlist text) ≠ [] := by
      intro h0
      have hflat := (chunksOf_spec hN1 (parseWordlist text)).2
      rw [h0] at hflat
      exact hne hflat.symm
    have hcb : 1 ≤ (chunksOf cfg.threads (parseWordlist text)).length :=
      List.length_pos.mpr hone
    have hLle : (parseWordlist text).length
        ≤ (chunksOf cfg.threads (parseWordlist text)).length * cfg.threads :=
      length_le_chunks_mul hN1 (parseWordlist text)
    rw [List.getLast?_eq_getElem?, List.length_map, List.length_range,
      List.getElem?_map, List.getElem?_range (by omega)]
    simp only [Option.map_some', Option.getD_some]
    have harith : (0 + ((chunksOf cfg.threads (parseWordlist text)).length - 1) + 1)
          * cfg.threads
        = (chunksOf cfg.threads (parseWordlist text)).length * cfg.threads := by
      congr 1
      omega
    rw [harith]
    congr 1
    omega
  · rw [hrun]

/-- Concurrent fixture configuration (two threads). -/
def fixCfgConc : FuzzConfig :=
  { url := "http://target/graphql", headersRaw := "", query := "\x7b users \x7d",
    variablesText := "", useProxy := false, proxyUrl := "",
    replacementMarker := some fixMarker, threads := 2, delayMs := 0 }

/-- An environment whose direct target always answers 200. -/
def fixEnvOk : FuzzEnv :=
  { parse := fixParse, stringify := fixStringify,
    pnetF := fun _ _ => .reply {}, dnetF := fun _ _ => .reply 200 "ok" [],
    times := fun _ => 0, aborted := fun _ => false }

/-- An environment whose direct target always answers 500 (completions still
produce rows). -/
def fixEnvOk500 : FuzzEnv :=
  { fixEnvOk with dnetF := fun _ _ => .reply 500 "err" [] }

theorem fixEnvOk_isOk (n : Nat) (w : String) :
    (stepR fixEnvOk fixCfgConc n w).isOk = true := by
  rw [stepR_direct_reply (v := Json.obj []) rfl rfl rfl]
  rfl

theorem fixEnvOk500_isOk (n : Nat) (w : String) :
    (stepR fixEnvOk500 fixCfgConc n w).isOk = true := by
  rw [stepR_direct_reply (v := Json.obj []) rfl rfl rfl]
  rfl

/-- Witness for C1 at a concrete two-thread, three-word run. -/
theorem c1_bounded_concurrency_witness :
    ∃ fr, startFuzzing fixEnvOk fixCfgConc "a\nb\nc" = some fr ∧
      fr.dispatched = (List.range (parseWordlist "a\nb\nc").length).map
        (fun j => (j + 1, (parseWordlist "a\nb\nc").getD j "")) ∧
      fr.dispatched.length = (parseWordlist "a\nb\nc").length ∧
      (chunksOf fixCfgConc.threads (parseWordlist "a\nb\nc")).flatten
        = parseWordlist "a\nb\nc" ∧
      (∀ b ∈ chunksOf fixCfgConc.threads (parseWordlist "a\nb\nc"),
        0 < b.length ∧ b.length ≤ fixCfgConc.threads) ∧
      fr.displayTrace.length
        = (chunksOf fixCfgConc.threads (parseWordlist "a\nb\nc")).length ∧
      (∀ t, t < fr.displayTrace.length →
        fr.displayTrace.getD t [] = seqRows fixEnvOk fixCfgConc (parseWordlist "a\nb\nc")
          (min ((t + 1) * fixCfgConc.threads) (parseWordlist "a\nb\nc").length)) ∧
      (∀ tr ∈ fr.displayTrace,
        tr.map (fun r => r.requestNum) = List.range' 1 tr.length) ∧
      fr.results = seqRows fixEnvOk fixCfgConc (parseWordlist "a\nb\nc")
        (parseWordlist "a\nb\nc").length ∧
      fr.progressCount = (parseWordlist "a\nb\nc").length ∧
      fr.isRunning = false :=
  c1_bounded_concurrency fixEnvOk fixCfgConc "a\nb\nc" rfl (by decide) (by decide)
    (fun _ => rfl) fixEnvOk_isOk

theorem map_getD_range {β : Type} (l : List String) (f : String → β) :
    (List.range l.length).map (fun j => f (l.getD j "")) = l.map f := by
  induction l with
  | nil => rfl
  | cons x xs ih =>
    rw [List.length_cons, List.range_succ_eq_map, List.map_cons, List.map_map,
      List.map_cons]
    congr 1

/-- Both dispatch modes of `startFuzzing` (without cancellation) dispatch the
whole wordlist in order, numbered from 1. -/
theorem startFuzzing_dispatched (env : FuzzEnv) (cfg : FuzzConfig) (text : String)
    (hmark : cfg.replacementMarker.isSome = true)
    (hne : parseWordlist text ≠ [])
    (hN : 1 ≤ cfg.threads)
    (hab : ∀ k, env.aborted k = false)
    (hok : ∀ n w, (stepR env cfg n w).isOk = true) :
    ∃ fr, startFuzzing env cfg text = some fr ∧
      fr.dispatched = (List.range (parseWordlist text).length).map
        (fun j => (j + 1, (parseWordlist text).getD j "")) := by
  by_cases h1 : cfg.threads = 1
  · obtain ⟨hs1, hs2, hs3⟩ := runSeqAux_all_ok env cfg hab (parseWordlist text) 0
      initSeqState (fun j _ => hok _ _)
    refine ⟨_, startFuzzing_eq_seq env cfg text h1 hmark hne, ?_⟩
    rw [hs3]
    show ([] : List (Nat × String)) ++ _ = _
    rw [List.nil_append]
    apply List.map_congr_left
    intro j _
    have h : 0 + j + 1 = j + 1 := by omega
    rw [h]
  · have hrun := runConcAux_ok env cfg hab hok hN (parseWordlist text)
      (parseWordlist text).length (parseWordlist text) 0 initConcState rfl
      (by rw [Nat.zero_mul, List.drop_zero])
      (by rw [Nat.zero_mul, Nat.zero_min]; rfl)
      (by rw [Nat.zero_mul, Nat.zero_min]; rfl)
    refine ⟨_, startFuzzing_eq_conc env cfg text h1 hmark hne, ?_⟩
    rw [hrun]
    show ([] : List (Nat × String)) ++ _ = _
    rw [List.nil_append]
    rw [show (parseWordlist text).length - 0 * cfg.threads
      = (parseWordlist text).length from by omega]
    apply List.map_congr_left
    intro j _
    have ha : 0 * cfg.threads + j + 1 = j + 1 := by omega
    have hb : 0 * cfg.threads + j = j := by omega
    rw [ha, hb]

/-- C2: every dispatched fuzz iteration splices its word into the original
unmodified base query at the marker's offsets (never into a previously
spliced result), and two complete runs over the same wordlist from the same
marker and base query — even under different network behaviour — produce
identical spliced query strings. -/
theorem c2_splice_from_base (env1 env2 : FuzzEnv) (cfg : FuzzConfig) (text : String)
    (marker : ReplacementMarker)
    (hmark : cfg.replacementMarker = some marker)
    (hne : parseWordlist text ≠ [])
    (hN : 1 ≤ cfg.threads)
    (hab1 : ∀ k, env1.aborted k = false)
    (hok1 : ∀ n w, (stepR env1 cfg n w).isOk = true)
    (hab2 : ∀ k, env2.aborted k = false)
    (hok2 : ∀ n w, (stepR env2 cfg n w).isOk = true) :
    ∃ fr1 fr2, startFuzzing env1 cfg text = some fr1 ∧
      startFuzzing env2 cfg text = some fr2 ∧
      (∀ p ∈ fr1.dispatched,
        builtQuery cfg p.2 = replaceTextInQuery cfg.query marker p.2) ∧
      fr1.dispatched.map (fun p => builtQuery cfg p.2)
        = (parseWordlist text).map (fun w => replaceTextInQuery cfg.query marker w) ∧
      fr2.dispatched.map (fun p => builtQuery cfg p.2)
        = (parseWordlist text).map (fun w => replaceTextInQuery cfg.query marker w) ∧
      fr1.dispatched.map (fun p => builtQuery cfg p.2)
        = fr2.dispatched.map (fun p => builtQuery cfg p.2) := by
  have hmark2 : cfg.replacementMarker.isSome = true := by rw [hmark]; rfl
  obtain ⟨fr1, h1, hd1⟩ :=
    startFuzzing_dispatched env1 cfg text hmark2 hne hN hab1 hok1
  obtain ⟨fr2, h2, hd2⟩ :=
    startFuzzing_dispatched env2 cfg text hmark2 hne hN hab2 hok2
  have hbq : ∀ w, builtQuery cfg w = replaceTextInQuery cfg.query marker w := by
    intro w
    unfold builtQuery
    rw [hmark]
  have hmap : ∀ (fr : FuzzRun),
      fr.dispatched = (List.range (parseWordlist text).length).map
        (fun j => (j + 1, (parseWordlist text).getD j "")) →
      fr.dispatched.map (fun p => builtQuery cfg p.2)
        = (parseWordlist text).map
            (fun w => replaceTextInQuery cfg.query marker w) := by
    intro fr hd
    rw [hd, List.map_map]
    have hcomp : ((fun (p : Nat × String) => builtQuery cfg p.2) ∘
          fun j => (j + 1, (parseWordlist text).getD j ""))
        = fun j => replaceTextInQuery cfg.query marker
            ((parseWordlist text).getD j "") := by
      funext j
      simp [Function.comp, hbq]
    rw [hcomp]
    exact map_getD_range (parseWordlist text)
      (fun w => replaceTextInQuery cfg.query marker w)
  exact ⟨fr1, fr2, h1, h2, fun p _ => hbq p.2, hmap fr1 hd1, hmap fr2 hd2,
    (hmap fr1 hd1).trans (hmap fr2 hd2).symm⟩

/-- Witness for C2: two runs of the same three-word list under different
network behaviour. -/
theorem c2_splice_from_base_witness :
    ∃ fr1 fr2, startFuzzing fixEnvOk fixCfgConc "a\nb\nc" = some fr1 ∧
      startFuzzing fixEnvOk500 fixCfgConc "a\nb\nc" = some fr2 ∧
      (∀ p ∈ fr1.dispatched,
        builtQuery fixCfgConc p.2
          = replaceTextInQuery fixCfgConc.query fixMarker p.2) ∧
      fr1.dispatched.map (fun p => builtQuery fixCfgConc p.2)
        = (parseWordlist "a\nb\nc").map
            (fun w => replaceTextInQuery fixCfgConc.query fixMarker w) ∧
      fr2.dispatched.map (fun p => builtQuery fixCfgConc p.2)
        = (parseWordlist "a\nb\nc").map
            (fun w => replaceTextInQuery fixCfgConc.query fixMarker w) ∧
      fr1.dispatched.map (fun p => builtQuery fixCfgConc p.2)
        = fr2.dispatched.map (fun p => builtQuery fixCfgConc p.2) :=
  c2_splice_from_base fixEnvOk fixEnvOk500 fixCfgConc "a\nb\nc" fixMarker rfl
    (by decide) (by decide) (fun _ => rfl) fixEnvOk_isOk (fun _ => rfl)
    fixEnvOk500_isOk

end GraphqlSniper
